import Mathlib

/-!
Verification development for the cconfig configuration library: a shallow
embedding of the element tree with path lookup (config_tree.hpp) and of the
schema tree with its validator (config_schema.hpp / config_schema.cpp),
together with theorems about the embedded operations.
-/

namespace CConfig

/-- Error channel of the embedded C++ code. `lookupError` stands for
`cconfig::lookup_error`; `castError` for failures of `boost::lexical_cast`
and `boost::numeric_cast` (`bad_lexical_cast` / `bad_numeric_cast`);
`schemaError` for `cconfig::schema::exception`; `undefinedBehavior` marks
executions the C++ source leaves undefined (an unchecked
`boost::ptr_vector::operator[]` out of range, or dereferencing the
`begin()` iterator of an empty child vector). -/
inductive cerr where
  | lookupError (msg : String)
  | castError (msg : String)
  | schemaError (msg : String)
  | undefinedBehavior
deriving DecidableEq

/-- The closed value variant of `cconfig::atom`:
`boost::variant<bool, long, double, std::string>`. Doubles are modelled as
exact rationals; the claims below depend only on whether conversions
succeed, never on the rounding of the stored value. -/
inductive cvalue where
  | vbool (b : Bool)
  | vlong (n : Int)
  | vdouble (q : Rat)
  | vstring (s : String)
deriving DecidableEq

/-- `cconfig::element`: a group (`boost::ptr_map<std::string, element>`,
modelled as the association list of its entries), a list
(`boost::ptr_vector<element>`), or an atom. -/
inductive element where
  | group (settings : List (String × element))
  | list (settings : List element)
  | atom (v : cvalue)

mutual

/-- Structural equality test for elements. -/
def element.beq : element → element → Bool
  | .group gs, .group hs => element.beqPairs gs hs
  | .list xs, .list ys => element.beqElems xs ys
  | .atom v, .atom w => v == w
  | _, _ => false

/-- Structural equality test for group entry lists. -/
def element.beqPairs : List (String × element) → List (String × element) → Bool
  | [], [] => true
  | (k, x) :: t, (k2, y) :: t2 => k == k2 && element.beq x y && element.beqPairs t t2
  | _, _ => false

/-- Structural equality test for element lists. -/
def element.beqElems : List element → List element → Bool
  | [], [] => true
  | x :: t, y :: t2 => element.beq x y && element.beqElems t t2
  | _, _ => false

end

mutual

theorem element.beq_iff : ∀ a b : element, element.beq a b = true ↔ a = b
  | .group gs, .group hs => by
    simp only [element.beq, element.group.injEq]
    exact element.beqPairs_iff gs hs
  | .group _, .list _ => by simp [element.beq]
  | .group _, .atom _ => by simp [element.beq]
  | .list _, .group _ => by simp [element.beq]
  | .list xs, .list ys => by
    simp only [element.beq, element.list.injEq]
    exact element.beqElems_iff xs ys
  | .list _, .atom _ => by simp [element.beq]
  | .atom _, .group _ => by simp [element.beq]
  | .atom _, .list _ => by simp [element.beq]
  | .atom v, .atom w => by simp [element.beq, beq_iff_eq]

theorem element.beqPairs_iff :
    ∀ a b : List (String × element), element.beqPairs a b = true ↔ a = b
  | [], [] => by simp [element.beqPairs]
  | [], _ :: _ => by simp [element.beqPairs]
  | _ :: _, [] => by simp [element.beqPairs]
  | (k, x) :: t, (k2, y) :: t2 => by
    simp only [element.beqPairs, Bool.and_eq_true, beq_iff_eq, List.cons.injEq,
      Prod.mk.injEq, element.beq_iff x y, element.beqPairs_iff t t2, and_assoc]

theorem element.beqElems_iff :
    ∀ a b : List element, element.beqElems a b = true ↔ a = b
  | [], [] => by simp [element.beqElems]
  | [], _ :: _ => by simp [element.beqElems]
  | _ :: _, [] => by simp [element.beqElems]
  | x :: t, y :: t2 => by
    simp only [element.beqElems, Bool.and_eq_true, List.cons.injEq,
      element.beq_iff x y, element.beqElems_iff t t2]

end

instance : DecidableEq element := fun a b =>
  decidable_of_iff (element.beq a b = true) (element.beq_iff a b)

instance {ε α : Type} [DecidableEq ε] [DecidableEq α] : DecidableEq (Except ε α) :=
  fun a b =>
    match a, b with
    | .ok x, .ok y =>
      if h : x = y then .isTrue (by rw [h]) else .isFalse (by simp [h])
    | .error x, .error y =>
      if h : x = y then .isTrue (by rw [h]) else .isFalse (by simp [h])
    | .ok _, .error _ => .isFalse (by simp)
    | .error _, .ok _ => .isFalse (by simp)

/-- `element::as_group`: dynamic cast, throwing `lookup_error` with the
message "Config setting is not a group" when the element is not a group. -/
def as_group : element → Except cerr (List (String × element))
  | .group gs => .ok gs
  | _ => .error (.lookupError "Config setting is not a group")

/-- `element::as_list`. The catch block in the source reuses the message
"Config setting is not a group" for the list cast as well. -/
def as_list : element → Except cerr (List element)
  | .list l => .ok l
  | _ => .error (.lookupError "Config setting is not a group")

/-- `element::as_atom`. The catch block in the source reuses the message
"Config setting is not a group" for the atom cast as well. -/
def as_atom : element → Except cerr cvalue
  | .atom v => .ok v
  | _ => .error (.lookupError "Config setting is not a group")

/-- `std::map::find` on the modelled entry list. -/
def assocFind {α : Type} : List (String × α) → String → Option α
  | [], _ => none
  | (k, v) :: t, key => if k = key then some v else assocFind t key

/-- `group::get`: map lookup, throwing `lookup_error`
"Element not found (key)" when the key is absent. -/
def group_get (settings : List (String × element)) (key : String) :
    Except cerr element :=
  match assocFind settings key with
  | some e => .ok e
  | none => .error (.lookupError ("Element not found (" ++ key ++ ")"))

/-- `list::get`: `settings_[index]` on a `boost::ptr_vector`, an unchecked
`operator[]`. In range it returns the element; out of range the source
performs no check and throws nothing (undefined behavior), modelled by the
distinguished `undefinedBehavior` outcome. -/
def list_get (settings : List element) (index : Nat) : Except cerr element :=
  match settings[index]? with
  | some e => .ok e
  | none => .error .undefinedBehavior

/-- A token of `cconfig::token_list`:
`boost::variant<std::string, unsigned int>`. -/
inductive ctoken where
  | name (s : String)
  | index (i : Nat)
deriving DecidableEq

/-- Word character test of the `boost::xpressive` class `_w`
([A-Za-z0-9_]). -/
def isWordChar (c : Char) : Bool := c.isAlpha || c.isDigit || c = '_'

/-- Model of `boost::algorithm::split` with `is_any_of`: cut the character
list at every separator occurrence, keeping empty pieces (splitting the
empty string yields one empty piece, as the Boost function does). -/
def splitChars (p : Char → Bool) : List Char → List (List Char)
  | [] => [[]]
  | c :: cs =>
    match splitChars p cs with
    | [] => [[]]
    | h :: t => if p c then [] :: h :: t else (c :: h) :: t

/-- Preprocessing done by `cconfig::util::split`: erase every ']' and split
on '.' and '['. -/
def piecesOf (s : String) : List String :=
  (splitChars (fun c => c = '.' || c = '[') (s.data.filter (fun c => c ≠ ']'))).map
    fun l => String.mk l

/-- Full-string match of `sregex rexNumber = +_d` (one or more digits). -/
def isDigitStr (t : String) : Bool := !t.data.isEmpty && t.data.all Char.isDigit

/-- Full-string match of `sregex rexName = +_w`. The source accepts one or
more word characters, not the identifier pattern: a digit may begin a
name. -/
def isWordStr (t : String) : Bool := !t.data.isEmpty && t.data.all isWordChar

/-- Base-10 value of a digit list. -/
def digitsToNat (ds : List Char) : Nat :=
  ds.foldl (fun a c => a * 10 + (c.toNat - 48)) 0

/-- Base-10 value of a digit string, as read by
`boost::lexical_cast<unsigned int>`. -/
def digitsVal (t : String) : Nat := digitsToNat t.data

/-- Message carried by a thrown `boost::bad_lexical_cast`. -/
def bad_lexical_cast : String :=
  "bad lexical cast: source type value could not be interpreted as target"

/-- Message carried by a thrown `boost::numeric::bad_numeric_cast`. -/
def bad_numeric_cast : String := "bad numeric conversion: value out of range"

/-- One iteration of the token loop in `cconfig::util::split` on piece `t`
of path `s`: an empty piece throws `lookup_error` naming subsequent
separators; an all-digit piece becomes an index token via
`boost::lexical_cast<unsigned int>`, which itself throws
`bad_lexical_cast` when the value does not fit 32 bits; any other all-word
piece becomes a name token; everything else throws `lookup_error` naming
the token. -/
def classifyTok (s t : String) : Except cerr ctoken :=
  if t = "" then
    .error (.lookupError
      ("Subsequent path separators found in config path (" ++ s ++ ")"))
  else if isDigitStr t then
    if digitsVal t < 4294967296 then .ok (.index (digitsVal t))
    else .error (.castError bad_lexical_cast)
  else if isWordStr t then .ok (.name t)
  else
    .error (.lookupError
      ("Failed to parse config path (" ++ s ++ ") at token " ++ t))

/-- The token loop of `cconfig::util::split` over the pieces, stopping at
the first throwing piece. -/
def splitGo (s : String) : List String → Except cerr (List ctoken)
  | [] => .ok []
  | t :: rest =>
    match classifyTok s t with
    | .error er => .error er
    | .ok tok =>
      match splitGo s rest with
      | .error er => .error er
      | .ok toks => .ok (tok :: toks)

/-- `cconfig::util::split`. -/
def split (s : String) : Except cerr (List ctoken) := splitGo s (piecesOf s)

/-- Test of `key.find_first_of(".[") != npos` in
`element::operator[](const std::string&)`. -/
def hasPathSep (key : String) : Bool :=
  key.data.any (fun c => c = '.' || c = '[')

/-- `element::recursive_lookup`, together with the `visitor` that applies
`operator[]` to each token. A name token produced by `util::split` consists
of word characters only (lemma `split_name_tokens_simple` below), so the
`operator[]` application inside the walk always takes the plain
`as_group().get(key)` branch, inlined here; the full `operator[]` including
its path-splitting branch is `element_index_string` below. -/
def recursive_lookup : element → List ctoken → Except cerr element
  | e, [] => .ok e
  | e, .name s :: rest =>
    match as_group e with
    | .error er => .error er
    | .ok gs =>
      match group_get gs s with
      | .error er => .error er
      | .ok next => recursive_lookup next rest
  | e, .index i :: rest =>
    match as_list e with
    | .error er => .error er
    | .ok l =>
      match list_get l i with
      | .error er => .error er
      | .ok next => recursive_lookup next rest

/-- `element::operator[](const std::string&)`: a key containing '.' or '['
is split and resolved by `recursive_lookup`, with every `lookup_error`
normalized to "Config setting not found (key)"; a plain key goes through
`as_group().get(key)`. The call to `util::split` sits outside the try
block, so its errors propagate as they are. -/
def element_index_string (e : element) (key : String) : Except cerr element :=
  if hasPathSep key then
    match split key with
    | .error er => .error er
    | .ok toks =>
      match recursive_lookup e toks with
      | .ok r => .ok r
      | .error (.lookupError _) =>
        .error (.lookupError ("Config setting not found (" ++ key ++ ")"))
      | .error (.castError m) => .error (.castError m)
      | .error (.schemaError m) => .error (.schemaError m)
      | .error .undefinedBehavior => .error .undefinedBehavior
  else
    match as_group e with
    | .error er => .error er
    | .ok gs => group_get gs key

/-- The four primitive `std::type_info` tags occurring in atoms and atom
schemas: typeid(bool), typeid(long), typeid(double),
typeid(std::string). -/
inductive cpptype where
  | tBool | tLong | tDouble | tString
deriving DecidableEq

/-- `atom::type()`: the runtime tag of the stored variant member. -/
def cvalueType : cvalue → cpptype
  | .vbool _ => .tBool
  | .vlong _ => .tLong
  | .vdouble _ => .tDouble
  | .vstring _ => .tString

/-- Bottom of the 64-bit signed long range. -/
def long_min : Int := -9223372036854775808

/-- Top of the 64-bit signed long range. -/
def long_max : Int := 9223372036854775807

/-- Split an optional leading sign off a character list. -/
def splitSign : List Char → Bool × List Char
  | '-' :: t => (true, t)
  | '+' :: t => (false, t)
  | t => (false, t)

/-- `boost::lexical_cast<long>` from a string: optional sign, one or more
digits, nothing else, and the value must fit a 64-bit signed long. -/
def parseLongStr (s : String) : Option Int :=
  let p := splitSign s.data
  if p.2.isEmpty || !p.2.all Char.isDigit then none
  else
    let v : Int := (if p.1 then -1 else 1) * (digitsToNat p.2 : Int)
    if long_min ≤ v ∧ v ≤ long_max then some v else none

/-- `boost::lexical_cast<bool>` from a string accepts exactly "0" and
"1". -/
def parseBoolStr (s : String) : Option Bool :=
  if s = "0" then some false else if s = "1" then some true else none

/-- Optional exponent part of a double literal ('e'/'E', optional sign, one
or more digits), which must consume the whole remaining input. -/
def parseExpPart : List Char → Option Int
  | [] => some 0
  | c :: t =>
    if c = 'e' || c = 'E' then
      let p := splitSign t
      if p.2.isEmpty || !p.2.all Char.isDigit then none
      else some ((if p.1 then -1 else 1) * (digitsToNat p.2 : Int))
    else none

/-- Ten to an integer power, as a rational. -/
def ratPow10 (e : Int) : Rat :=
  if 0 ≤ e then ((10 : Rat) ^ e.toNat) else 1 / ((10 : Rat) ^ ((-e).toNat))

/-- `boost::lexical_cast<double>` from a string, modelled over exact
rationals: optional sign, digits with an optional fractional part (at least
one digit overall), optional exponent. Only success or failure of this
parse is relied upon below. -/
def parseRatStr (s : String) : Option Rat :=
  let p := splitSign s.data
  let sign : Rat := if p.1 then -1 else 1
  let ip := p.2.takeWhile Char.isDigit
  match p.2.dropWhile Char.isDigit with
  | '.' :: cs2 =>
    let fp := cs2.takeWhile Char.isDigit
    if ip.isEmpty && fp.isEmpty then none
    else
      match parseExpPart (cs2.dropWhile Char.isDigit) with
      | none => none
      | some ex =>
        some (sign * ((digitsToNat ip : Rat) +
          (digitsToNat fp : Rat) / ratPow10 (fp.length : Int)) * ratPow10 ex)
  | rest =>
    if ip.isEmpty then none
    else
      match parseExpPart rest with
      | none => none
      | some ex => some (sign * (digitsToNat ip : Rat) * ratPow10 ex)

/-- Truncation toward zero, the rounding `boost::numeric_cast` applies when
converting a floating value to an integral type. -/
def ratTrunc (q : Rat) : Int := if 0 ≤ q then q.floor else -((-q).floor)

/-- Stand-in for the text `boost::lexical_cast<std::string>` produces from
a double; the conversion always succeeds and no claim below inspects the
resulting text. -/
def ratToString (q : Rat) : String :=
  if q.den = 1 then toString q.num
  else toString q.num ++ "/" ++ toString q.den

/-- `atom::as<T>` via `cconfig::atom_detail::visitor<T>`, for the four
types the library instantiates: arithmetic-to-arithmetic conversions go
through `boost::numeric_cast` (range-checked), string sources and targets
through `boost::lexical_cast`. -/
def atom_as (t : cpptype) (v : cvalue) : Except cerr cvalue :=
  match t, v with
  | .tBool, .vbool b => .ok (.vbool b)
  | .tBool, .vlong n =>
    if 0 ≤ n ∧ n ≤ 1 then .ok (.vbool (n == 1))
    else .error (.castError bad_numeric_cast)
  | .tBool, .vdouble q =>
    if 0 ≤ q ∧ q ≤ 1 then .ok (.vbool (ratTrunc q == 1))
    else .error (.castError bad_numeric_cast)
  | .tBool, .vstring s =>
    match parseBoolStr s with
    | some b => .ok (.vbool b)
    | none => .error (.castError bad_lexical_cast)
  | .tLong, .vbool b => .ok (.vlong (if b then 1 else 0))
  | .tLong, .vlong n => .ok (.vlong n)
  | .tLong, .vdouble q =>
    if long_min ≤ ratTrunc q ∧ ratTrunc q ≤ long_max then .ok (.vlong (ratTrunc q))
    else .error (.castError bad_numeric_cast)
  | .tLong, .vstring s =>
    match parseLongStr s with
    | some n => .ok (.vlong n)
    | none => .error (.castError bad_lexical_cast)
  | .tDouble, .vbool b => .ok (.vdouble (if b then 1 else 0))
  | .tDouble, .vlong n => .ok (.vdouble (n : Rat))
  | .tDouble, .vdouble q => .ok (.vdouble q)
  | .tDouble, .vstring s =>
    match parseRatStr s with
    | some q => .ok (.vdouble q)
    | none => .error (.castError bad_lexical_cast)
  | .tString, .vbool b => .ok (.vstring (if b then "1" else "0"))
  | .tString, .vlong n => .ok (.vstring (toString n))
  | .tString, .vdouble q => .ok (.vstring (ratToString q))
  | .tString, .vstring s => .ok (.vstring s)

/-- `element::as<T>`: `this->as_atom().as<T>()`. -/
def element_as (t : cpptype) (e : element) : Except cerr cvalue :=
  match as_atom e with
  | .error er => .error er
  | .ok v => atom_as t v

/-- `element::lookup<T>(path)`: split the path (outside the try block, so
split errors propagate as they are), then resolve and coerce inside a try
block whose catch rethrows every `lookup_error` as
"Config setting not found (path)". -/
def clookup (t : cpptype) (path : String) (e : element) : Except cerr cvalue :=
  match split path with
  | .error er => .error er
  | .ok toks =>
    match (match recursive_lookup e toks with
           | .error er => .error er
           | .ok r => element_as t r : Except cerr cvalue) with
    | .ok v => .ok v
    | .error (.lookupError _) =>
      .error (.lookupError ("Config setting not found (" ++ path ++ ")"))
    | .error (.castError m) => .error (.castError m)
    | .error (.schemaError m) => .error (.schemaError m)
    | .error .undefinedBehavior => .error .undefinedBehavior

/-- `element::lookup<T>(path, default)`: call `lookup<T>(path)` and catch
only `cconfig::lookup_error`, returning the default; any other failure
propagates. -/
def clookup_default (t : cpptype) (path : String) (d : cvalue) (e : element) :
    Except cerr cvalue :=
  match clookup t path e with
  | .ok v => .ok v
  | .error (.lookupError _) => .ok d
  | .error (.castError m) => .error (.castError m)
  | .error (.schemaError m) => .error (.schemaError m)
  | .error .undefinedBehavior => .error .undefinedBehavior

/-- Attribute value variant of schema nodes:
`boost::variant<long, bool, double, std::string>`. -/
inductive attrval where
  | along (n : Int)
  | abool (b : Bool)
  | adouble (q : Rat)
  | astring (s : String)
deriving DecidableEq

/-- The C++ types at which `node::get_attribute<T>` is instantiated in the
repository: `long`, `bool`, `double`, `std::string` by the code generator,
and `int` by `schema::list::validate`. `int` is a distinct C++ type from
`long`. -/
inductive attrty where
  | tyInt | tyLong | tyBool | tyDouble | tyString
deriving DecidableEq

/-- Whether `boost::get<T>` succeeds on the stored attribute value. The
Boost versions contemporary to this code provide the relaxed form of
`boost::get`: it compiles for any requested type and succeeds only when
the requested type is exactly the stored member type, so requesting `int`
from `boost::variant<long, bool, double, std::string>` always fails with
`bad_get`. -/
def attrTypeMatches : attrty → attrval → Bool
  | .tyLong, .along _ => true
  | .tyBool, .abool _ => true
  | .tyDouble, .adouble _ => true
  | .tyString, .astring _ => true
  | _, _ => false

/-- `node::has_attribute`. -/
def has_attribute (attrs : List (String × attrval)) (name : String) : Bool :=
  (assocFind attrs name).isSome

/-- `node::get_attribute<T>`: throws `schema::exception` when the
attribute is absent, and rethrows the `bad_get` of a failing
`boost::get<T>` as a `schema::exception` naming the attribute. -/
def get_attribute (attrs : List (String × attrval)) (t : attrty)
    (name : String) : Except cerr attrval :=
  match assocFind attrs name with
  | none => .error (.schemaError ("Attribute not found (" ++ name ++ ")"))
  | some v =>
    if attrTypeMatches t v then .ok v
    else .error (.schemaError ("Invalid conversion requested for attribute "
      ++ name ++ " (boost::bad_get: failed value get using boost::get)"))

/-- `cconfig::schema::node` and its three subclasses. `name_` and
`parent_` are not stored: a node's name lives in its parent's entry, and
the parent chain needed by `uri()` is passed explicitly as an ancestry of
(name, is-list) pairs from the root downward. Group children model the
`std::map` `children_`; list children the `std::vector`. -/
inductive snode where
  | sgroup (required : Bool) (attrs : List (String × attrval))
      (children : List (String × snode))
  | slist (required : Bool) (attrs : List (String × attrval))
      (children : List snode)
  | satom (required : Bool) (attrs : List (String × attrval)) (ty : cpptype)

/-- The `required_` member. -/
def snode.required : snode → Bool
  | .sgroup r _ _ => r
  | .slist r _ _ => r
  | .satom r _ _ => r

/-- Overwrite the `required_` member. -/
def snode.setRequired : snode → Bool → snode
  | .sgroup _ a c, r => .sgroup r a c
  | .slist _ a c, r => .slist r a c
  | .satom _ a t, r => .satom r a t

/-- The dynamic-cast test `dynamic_cast<const list*>(n)` in
`node::uri`. -/
def snode.isList : snode → Bool
  | .slist _ _ _ => true
  | _ => false

/-- One element of the uri deque built by `node::uri`: the node's name
("unnamed" when empty), with a "[]" suffix for list nodes. -/
def uriElement (name : String) (isL : Bool) : String :=
  (if name = "" then "unnamed" else name) ++ (if isL then "[]" else "")

/-- `node::uri()`, as a function of the node's ancestry: the (name,
is-list) pairs from the topmost node below the root down to the node
itself. The root has empty ancestry and uri "/"; otherwise the walk over
`parent_` produces one deque element per node, the root contributing the
empty string, joined with "/". -/
def snode_uri (anc : List (String × Bool)) : String :=
  match anc with
  | [] => "/"
  | _ => "/" ++ String.intercalate "/" (anc.map fun p => uriElement p.1 p.2)

/-- `schema::group::add_child(name, n, required)`: append the entry to the
child map and, when the explicit marker is set or the node already
carries `required_`, set `required_` on both the child and this group
(the bottom-up propagation of the required flag). On a non-group node the
member function does not exist; the embedding returns the node
unchanged. -/
def group_add_child (g : snode) (name : String) (n : snode)
    (required : Bool) : snode :=
  match g with
  | .sgroup greq attrs children =>
    if required || n.required then
      .sgroup true attrs (children ++ [(name, n.setRequired true)])
    else .sgroup greq attrs (children ++ [(name, n)])
  | other => other

/-- `schema::list::add_child(n)`: append the child; only the parent
pointer is set, no flag changes. -/
def list_add_child (l : snode) (n : snode) : snode :=
  match l with
  | .slist lreq attrs children => .slist lreq attrs (children ++ [n])
  | other => other

/-- `cconfig::schema::validation_result`. -/
structure vresult where
  valid : Bool
  error_uri : String
  error_message : String
deriving DecidableEq

/-- The result `validation_result(true)`, with defaulted location and
message, also produced by the implicit conversion in `return true`. -/
def vtrue : vresult := ⟨true, "", ""⟩

/-- The strict loop of `schema::group::validate`: iterate the keys present
in the config group and fail on the first one that has no schema
child. -/
def strictLoop (children : List (String × snode))
    (gs : List (String × element)) (u : String) : Option vresult :=
  match gs with
  | [] => none
  | (key, _) :: rest =>
    match assocFind children key with
    | some _ => strictLoop children rest u
    | none => some ⟨false, u,
        "Attribute \x27" ++ key ++ "\x27 not found in schema "
          ++ "(strict validation). This might possibly be a typo."⟩

/-- Fallback numeric reading of an attribute value for the (unreachable)
success case of `get_attribute<int>`; see `minCheck`. -/
def attrIntValue : attrval → Int
  | .along n => n
  | .abool b => if b then 1 else 0
  | .adouble q => ratTrunc q
  | .astring _ => 0

/-- The min-attribute check at the end of `schema::list::validate`. The
attribute is read with `get_attribute<int>`, which always throws because
the schema parser and the generated tree builder store the attribute as
`long`, never as `int`; the length comparison after it is therefore dead
code, modelled here all the same. -/
def minCheck (attrs : List (String × attrval)) (u : String) (len : Nat) :
    Except cerr (Option vresult) :=
  if has_attribute attrs "min" then
    match get_attribute attrs .tyInt "min" with
    | .error er => .error er
    | .ok v =>
      if (len : Int) < attrIntValue v then
        .ok (some ⟨false, u, "List has not enough entries, need at least "
          ++ toString (attrIntValue v)⟩)
      else .ok none
  else .ok none

/-- The expected-kind name in the atom mismatch message (the if chain over
`type_` in `schema::atom::validate`). -/
def typeName : cpptype → String
  | .tString => "string"
  | .tLong => "integer"
  | .tBool => "bool"
  | .tDouble => "float"

mutual

/-- `schema::node::validate` for the three node kinds, with explicit
ancestry for uri reconstruction. Group: `as_group`, the child loop
(`groupChildrenLoop`), then strict checking; the catch around the cast
turns a `lookup_error` into "Group required". List: `as_list`, each
config element validated against the single declared child
(`listElemsLoop`), then the min check; the catch turns a `lookup_error`
into "List required". Atom: `as_atom`, then exact comparison of the type
tags. -/
def svalidate (n : snode) (anc : List (String × Bool)) (e : element)
    (strict : Bool) : Except cerr vresult :=
  match n with
  | .sgroup _ _attrs children =>
    match as_group e with
    | .error _ => .ok ⟨false, snode_uri anc, "Group required"⟩
    | .ok gs =>
      match groupChildrenLoop children anc e strict with
      | .error er => .error er
      | .ok (some r) => .ok r
      | .ok none =>
        if strict then
          match strictLoop children gs (snode_uri anc) with
          | some r => .ok r
          | none => .ok vtrue
        else .ok vtrue
  | .slist _ attrs children =>
    match as_list e with
    | .error _ => .ok ⟨false, snode_uri anc, "List required"⟩
    | .ok elems =>
      match listElemsLoop children anc elems strict with
      | .error (.lookupError _) => .ok ⟨false, snode_uri anc, "List required"⟩
      | .error (.castError m) => .error (.castError m)
      | .error (.schemaError m) => .error (.schemaError m)
      | .error .undefinedBehavior => .error .undefinedBehavior
      | .ok (some r) => .ok r
      | .ok none =>
        match minCheck attrs (snode_uri anc) elems.length with
        | .error (.lookupError _) => .ok ⟨false, snode_uri anc, "List required"⟩
        | .error (.castError m) => .error (.castError m)
        | .error (.schemaError m) => .error (.schemaError m)
        | .error .undefinedBehavior => .error .undefinedBehavior
        | .ok (some r) => .ok r
        | .ok none => .ok vtrue
  | .satom _ _attrs ty =>
    match as_atom e with
    | .error _ => .ok ⟨false, snode_uri anc, "Atom required"⟩
    | .ok v =>
      if cvalueType v ≠ ty then
        .ok ⟨false, snode_uri anc,
          "Type mismatch, " ++ typeName ty ++ " required"⟩
      else .ok vtrue
termination_by (sizeOf n, 0)

/-- The child loop of `schema::group::validate`: fetch each declared child
from the config element with `operator[]` and validate it, both inside a
try whose catch treats a `lookup_error` as a missing setting — an error
located at this group's uri when the child is required, skipped
otherwise. Returns `some r` for an early `return r`, `none` when the
loop falls through. -/
def groupChildrenLoop (children : List (String × snode))
    (anc : List (String × Bool)) (e : element) (strict : Bool) :
    Except cerr (Option vresult) :=
  match children with
  | [] => .ok none
  | (name, c) :: rest =>
    match (match element_index_string e name with
           | .error er => .error er
           | .ok ce => svalidate c (anc ++ [(name, c.isList)]) ce strict
           : Except cerr vresult) with
    | .ok r =>
      if r.valid then groupChildrenLoop rest anc e strict else .ok (some r)
    | .error (.lookupError _) =>
      if c.required then
        .ok (some ⟨false, snode_uri anc,
          "Missing required attribute \x27" ++ name ++ "\x27"⟩)
      else groupChildrenLoop rest anc e strict
    | .error (.castError m) => .error (.castError m)
    | .error (.schemaError m) => .error (.schemaError m)
    | .error .undefinedBehavior => .error .undefinedBehavior
termination_by (sizeOf children, 0)

/-- The element loop of `schema::list::validate`: validate every config
element against `*children_.begin()`; a list child node carries no name,
so its uri element renders as "unnamed". With an empty child vector and a
nonempty config list the begin() dereference is undefined. -/
def listElemsLoop (children : List snode) (anc : List (String × Bool))
    (elems : List element) (strict : Bool) : Except cerr (Option vresult) :=
  match elems with
  | [] => .ok none
  | el :: rest =>
    match children with
    | [] => .error .undefinedBehavior
    | c :: crest =>
      match svalidate c (anc ++ [("", c.isList)]) el strict with
      | .error er => .error er
      | .ok r =>
        if r.valid then listElemsLoop (c :: crest) anc rest strict
        else .ok (some r)
termination_by (sizeOf children, sizeOf elems)

end

/-- Name tokens produced by `util::split` consist of word characters only,
so they contain neither '.' nor '['; this is what justifies inlining the
plain branch of `operator[]` in `recursive_lookup`. -/
theorem split_name_tokens_simple (s : String) (toks : List ctoken)
    (h : split s = .ok toks) :
    ∀ u, ctoken.name u ∈ toks → u.data.all isWordChar = true ∧ hasPathSep u = false := by
  have main : ∀ ts res, splitGo s ts = .ok res →
      ∀ u, ctoken.name u ∈ res → u.data.all isWordChar = true := by
    intro ts
    induction ts with
    | nil => intro res h u hu; simp only [splitGo] at h; cases h; simp at hu
    | cons t rest ih =>
      intro res h u hu
      simp only [splitGo] at h
      cases hc : classifyTok s t with
      | error er => rw [hc] at h; cases h
      | ok tok =>
        rw [hc] at h
        cases hr : splitGo s rest with
        | error er => rw [hr] at h; cases h
        | ok toks2 =>
          rw [hr] at h
          cases h
          rcases List.mem_cons.mp hu with h1 | h2
          · subst h1
            unfold classifyTok at hc
            by_cases ht : t = ""
            · simp [ht] at hc
            · simp only [ht, if_false] at hc
              by_cases hd : isDigitStr t = true
              · simp only [hd, if_true] at hc
                by_cases hlt : digitsVal t < 4294967296
                · simp [hlt] at hc
                · simp [hlt] at hc
              · simp only [hd] at hc
                by_cases hw : isWordStr t = true
                · simp only [hw, if_true] at hc
                  cases hc
                  exact (Bool.and_elim_right hw)
                · simp [hw] at hc
          · exact ih toks2 hr u h2
  intro u hu
  have hw := main (piecesOf s) toks h u hu
  refine ⟨hw, ?_⟩
  simp only [hasPathSep, List.any_eq_false]
  intro c hc
  have hwc : isWordChar c = true := by
    have := List.all_eq_true.mp hw c hc
    simpa using this
  intro hor
  rcases (by simpa using hor : c = '.' ∨ c = '[') with h1 | h1
  · subst h1; exact absurd hwc (by decide)
  · subst h1; exact absurd hwc (by decide)

example : piecesOf "a.b[2][0].c" = ["a", "b", "2", "0", "c"] := by decide

example : split "a.b[2]" = .ok [.name "a", .name "b", .index 2] := by decide

example : split "2a" = .ok [.name "2a"] := by decide

example : split "a..b" =
    .error (.lookupError "Subsequent path separators found in config path (a..b)") := by
  decide

example :
    clookup .tLong "a" (element.group [("a", element.atom (cvalue.vlong 7))]) =
      .ok (.vlong 7) := by decide

example :
    clookup .tLong "a" (element.group [("a", element.atom (cvalue.vstring "x"))]) =
      .error (.castError bad_lexical_cast) := by decide

example :
    clookup .tLong "b" (element.group [("a", element.atom (cvalue.vlong 7))]) =
      .error (.lookupError "Config setting not found (b)") := by decide

/-- Test whether a result is a `cconfig::lookup_error` failure. -/
def isLookupFailure {α : Type} : Except cerr α → Bool
  | .error (.lookupError _) => true
  | _ => false

/-- The identifier pattern named by the original claim about path
splitting: one of [A-Za-z_] followed by word characters. The source's
`+_w` regex differs from it on pieces such as "2a". -/
def identPattern (t : String) : Bool :=
  match t.data with
  | [] => false
  | c :: cs => (c.isAlpha || c = '_') && cs.all isWordChar

/-- A piece acceptable to `util::split`, in the vocabulary of the amended
claim C5: nonempty, all word characters, and, when all digits, small
enough for `unsigned int`. -/
def goodPiece (t : String) : Bool :=
  isWordStr t && (!isDigitStr t || decide (digitsVal t < 4294967296))

/-- The per-piece token the amended claim C5 assigns: an index token for
an all-digit piece, a name token otherwise. -/
def specToken (t : String) : ctoken :=
  if isDigitStr t then .index (digitsVal t) else .name t

theorem classifyTok_ok_of_good (s t : String) (h : goodPiece t = true) :
    classifyTok s t = .ok (specToken t) := by
  have h' := h
  rw [goodPiece, Bool.and_eq_true] at h'
  have hw : isWordStr t = true := h'.1
  have hne : t ≠ "" := by
    intro he; rw [he] at hw; exact absurd hw (by decide)
  unfold classifyTok specToken
  rw [if_neg hne]
  by_cases hd : isDigitStr t = true
  · have hlt : digitsVal t < 4294967296 := by
      have h2 := h'.2
      rw [hd] at h2
      simpa using h2
    simp [hd, hlt]
  · have hd' : isDigitStr t = false := by simpa using hd
    simp [hd', hw]

theorem digit_pieces_are_word (t : String) (h : isDigitStr t = true) :
    isWordStr t = true := by
  simp only [isDigitStr, Bool.and_eq_true] at h
  simp only [isWordStr, Bool.and_eq_true]
  refine ⟨h.1, ?_⟩
  rw [List.all_eq_true] at h ⊢
  · intro c hcm
    have := h.2 c hcm
    simp only [isWordChar]
    simp [this]

theorem classifyTok_error_of_bad (s t : String) (h : goodPiece t = false) :
    ∃ er, classifyTok s t = .error er := by
  unfold classifyTok
  by_cases hne : t = ""
  · exact ⟨_, by rw [if_pos hne]⟩
  · rw [if_neg hne]
    by_cases hd : isDigitStr t = true
    · have hw := digit_pieces_are_word t hd
      have hbig : ¬ digitsVal t < 4294967296 := by
        intro hlt
        rw [goodPiece, hw, hd] at h
        simp [hlt] at h
      simp [hd, hbig]
    · have hd' : isDigitStr t = false := by simpa using hd
      have hw : isWordStr t = false := by
        cases hwc : isWordStr t with
        | false => rfl
        | true =>
          rw [goodPiece, hwc, hd'] at h
          simp at h
      simp [hd', hw]

theorem splitGo_ok_of_good (s : String) :
    ∀ ts : List String, (∀ t ∈ ts, goodPiece t = true) →
      splitGo s ts = .ok (ts.map specToken)
  | [], _ => rfl
  | t :: rest, h => by
    have ht := h t (List.mem_cons_self t rest)
    have hrest := splitGo_ok_of_good s rest
      (fun x hx => h x (List.mem_cons_of_mem t hx))
    simp only [splitGo, classifyTok_ok_of_good s t ht, hrest, List.map]

theorem splitGo_error_of_bad (s : String) :
    ∀ ts : List String, (∃ t ∈ ts, goodPiece t = false) →
      ∃ er, splitGo s ts = .error er
  | t :: rest, h => by
    rcases h with ⟨u, hu, hbad⟩
    rcases List.mem_cons.mp hu with h1 | h2
    · subst h1
      rcases classifyTok_error_of_bad s u hbad with ⟨er, her⟩
      exact ⟨er, by simp [splitGo, her]⟩
    · by_cases hg : goodPiece t = true
      · rcases splitGo_error_of_bad s rest ⟨u, h2, hbad⟩ with ⟨er, her⟩
        exact ⟨er, by simp [splitGo, classifyTok_ok_of_good s t hg, her]⟩
      · have hg' : goodPiece t = false := by simpa using hg
        rcases classifyTok_error_of_bad s t hg' with ⟨er, her⟩
        exact ⟨er, by simp [splitGo, her]⟩

/-- Claim C5 (amended): after stripping closing brackets and splitting on
'.' and '[', the resolver classifies a non-empty piece as an index token
exactly when it is all digits (with the value fitting `unsigned int`, else
the conversion throws a cast error), and as a name token exactly when it
is made of word characters [A-Za-z0-9_] and is not all digits — so a piece
such as "2a" is accepted as a name token; an empty piece raises the
subsequent-separators lookup error, a piece containing a character outside
[A-Za-z0-9_] raises the malformed-path lookup error, and `split` succeeds
with exactly the per-piece classification when every piece is
acceptable. -/
theorem c5_path_classification (s t : String) :
    (classifyTok s t = .ok (.index (digitsVal t)) ↔
      isDigitStr t = true ∧ digitsVal t < 4294967296)
    ∧ (classifyTok s t = .ok (.name t) ↔
      isWordStr t = true ∧ isDigitStr t = false)
    ∧ (t = "" → classifyTok s t = .error (.lookupError
        ("Subsequent path separators found in config path (" ++ s ++ ")")))
    ∧ (t ≠ "" → t.data.all isWordChar = false → classifyTok s t =
        .error (.lookupError
          ("Failed to parse config path (" ++ s ++ ") at token " ++ t)))
    ∧ ((∀ u ∈ piecesOf s, goodPiece u = true) →
        split s = .ok ((piecesOf s).map specToken))
    ∧ ((∃ u ∈ piecesOf s, goodPiece u = false) →
        ∃ er, split s = .error er) := by
  refine ⟨?_, ?_, ?_, ?_, ?_, ?_⟩
  · constructor
    · intro h
      by_cases hne : t = ""
      · rw [classifyTok, if_pos hne] at h; cases h
      · rw [classifyTok, if_neg hne] at h
        by_cases hd : isDigitStr t = true
        · rw [hd, if_pos rfl] at h
          by_cases hlt : digitsVal t < 4294967296
          · exact ⟨hd, hlt⟩
          · rw [if_neg hlt] at h; cases h
        · have hd' : isDigitStr t = false := by simpa using hd
          rw [hd'] at h
          simp only [Bool.false_eq_true, if_false] at h
          by_cases hw : isWordStr t = true
          · rw [hw, if_pos rfl] at h; cases h
          · have hw' : isWordStr t = false := by simpa using hw
            rw [hw'] at h
            simp only [Bool.false_eq_true, if_false] at h
            cases h
    · rintro ⟨hd, hlt⟩
      have hne : t ≠ "" := by
        intro he
        rw [he] at hd
        exact absurd hd (by decide)
      rw [classifyTok, if_neg hne, hd, if_pos rfl, if_pos hlt]
  · constructor
    · intro h
      by_cases hne : t = ""
      · rw [classifyTok, if_pos hne] at h; cases h
      · rw [classifyTok, if_neg hne] at h
        by_cases hd : isDigitStr t = true
        · rw [hd, if_pos rfl] at h
          by_cases hlt : digitsVal t < 4294967296
          · rw [if_pos hlt] at h; cases h
          · rw [if_neg hlt] at h; cases h
        · have hd' : isDigitStr t = false := by simpa using hd
          rw [hd'] at h
          simp only [Bool.false_eq_true, if_false] at h
          by_cases hw : isWordStr t = true
          · exact ⟨hw, hd'⟩
          · have hw' : isWordStr t = false := by simpa using hw
            rw [hw'] at h
            simp only [Bool.false_eq_true, if_false] at h
            cases h
    · rintro ⟨hw, hd⟩
      have hne : t ≠ "" := by
        intro he
        rw [he] at hw
        exact absurd hw (by decide)
      rw [classifyTok, if_neg hne, hd]
      simp only [Bool.false_eq_true, if_false]
      rw [hw, if_pos rfl]
  · intro h
    rw [classifyTok, if_pos h]
  · intro hne hword
    have hd : isDigitStr t = false := by
      cases hdc : isDigitStr t with
      | false => rfl
      | true =>
        have := digit_pieces_are_word t hdc
        rw [isWordStr, Bool.and_eq_true] at this
        rw [this.2] at hword
        cases hword
    have hw : isWordStr t = false := by
      rw [isWordStr, hword, Bool.and_false]
    rw [classifyTok, if_neg hne, hd]
    simp only [Bool.false_eq_true, if_false]
    rw [hw]
    simp only [Bool.false_eq_true, if_false]
  · intro h
    exact splitGo_ok_of_good s (piecesOf s) h
  · intro h
    exact splitGo_error_of_bad s (piecesOf s) h

/-- Witness for `c5_path_classification` at concrete inputs: the index and
name classifications, the two error cases, and the whole-path success and
failure cases. -/
theorem c5_path_classification_witness :
    classifyTok "a.b[10]" "10" = .ok (.index 10)
    ∧ classifyTok "a.b[10]" "b" = .ok (.name "b")
    ∧ classifyTok "a..b" "" = .error (.lookupError
        "Subsequent path separators found in config path (a..b)")
    ∧ classifyTok "a-b" "a-b" = .error (.lookupError
        "Failed to parse config path (a-b) at token a-b")
    ∧ split "a.b[10]" = .ok [.name "a", .name "b", .index 10]
    ∧ (∃ er, split "x..y" = .error er) := by
  refine ⟨?_, ?_, ?_, ?_, ?_, ?_⟩
  · have h := ((c5_path_classification "a.b[10]" "10").1).mpr (by decide)
    simpa using h
  · exact ((c5_path_classification "a.b[10]" "b").2.1).mpr (by decide)
  · exact (c5_path_classification "a..b" "").2.2.1 rfl
  · exact (c5_path_classification "a-b" "a-b").2.2.2.1 (by decide) (by decide)
  · have h := (c5_path_classification "a.b[10]" "").2.2.2.2.1 (by decide)
    simpa using h
  · exact (c5_path_classification "x..y" "").2.2.2.2.2 ⟨"", by decide, by decide⟩

/-- Counterexample to claim C5 as stated: the piece "2a" starts with a
digit, is not all digits, and does not match the identifier pattern, yet
`util::split` does not reject it — the `+_w` regex accepts it as a name
token. -/
theorem c5_counterexample :
    split "2a" = .ok [ctoken.name "2a"]
    ∧ identPattern "2a" = false
    ∧ isDigitStr "2a" = false := by decide

/-- Claim C10: each of the three narrowing accessors `as_group`, `as_list`
and `as_atom`, applied to an element that is not of the requested variant,
fails with a `lookup_error` whose message is "Config setting is not a
group" — naming "group" in all three cases, including when a list or an
atom was the requested kind. -/
theorem c10_narrowing_message (v : cvalue) (gs : List (String × element))
    (es : List element) :
    as_group (.atom v) = .error (.lookupError "Config setting is not a group")
    ∧ as_group (.list es) = .error (.lookupError "Config setting is not a group")
    ∧ as_list (.atom v) = .error (.lookupError "Config setting is not a group")
    ∧ as_list (.group gs) = .error (.lookupError "Config setting is not a group")
    ∧ as_atom (.group gs) = .error (.lookupError "Config setting is not a group")
    ∧ as_atom (.list es) = .error (.lookupError "Config setting is not a group") :=
  ⟨rfl, rfl, rfl, rfl, rfl, rfl⟩

/-- Claim C4 (amended): `get(index)` on a list returns the i-th element
when the index is in range; for an index at or past the size no bounds
check is performed and no lookup failure is signalled — the access is an
unchecked `ptr_vector::operator[]`, modelled by the distinguished
undefined-behavior outcome. -/
theorem c4_list_get (l : List element) (i : Nat) :
    (∀ h : i < l.length, list_get l i = .ok (l.get ⟨i, h⟩))
    ∧ (l.length ≤ i → list_get l i = .error .undefinedBehavior) := by
  constructor
  · intro h
    simp [list_get, List.getElem?_eq_getElem h]
  · intro h
    simp [list_get, List.getElem?_eq_none h]

/-- Witness for `c4_list_get`: in-range and out-of-range accesses on a
one-element list. -/
theorem c4_list_get_witness :
    list_get [element.atom (cvalue.vlong 1)] 0 = .ok (element.atom (cvalue.vlong 1))
    ∧ list_get [element.atom (cvalue.vlong 1)] 1 = .error .undefinedBehavior := by
  constructor
  · have h := (c4_list_get [element.atom (cvalue.vlong 1)] 0).1 (by decide)
    simpa using h
  · exact (c4_list_get [element.atom (cvalue.vlong 1)] 1).2 (by decide)

/-- Counterexample to claim C4 as stated: the out-of-range access
`get(1)` on a one-element list does not signal a lookup failure; the
source performs an unchecked vector access. -/
theorem c4_counterexample :
    isLookupFailure (list_get [element.atom (cvalue.vlong 1)] 1) = false
    ∧ list_get [element.atom (cvalue.vlong 1)] 1 = .error .undefinedBehavior := by
  decide

/-- Claim C1 (amended): when a step of the `lookup<T>(p)` walk fails with a
`lookup_error` — a missing group key or a wrong node kind, including a
non-atom at the end of the path — the caller sees the single normalized
error "Config setting not found (p)"; a failed coercion of the resolved
atom to T is not a `lookup_error` and instead propagates to the caller
unchanged. -/
theorem c1_lookup_error_channel (t : cpptype) (p : String) (e : element) :
    (∀ toks m, split p = .ok toks →
        recursive_lookup e toks = .error (.lookupError m) →
        clookup t p e =
          .error (.lookupError ("Config setting not found (" ++ p ++ ")")))
    ∧ (∀ toks el m, split p = .ok toks → recursive_lookup e toks = .ok el →
        element_as t el = .error (.lookupError m) →
        clookup t p e =
          .error (.lookupError ("Config setting not found (" ++ p ++ ")")))
    ∧ (∀ toks el m, split p = .ok toks → recursive_lookup e toks = .ok el →
        element_as t el = .error (.castError m) →
        clookup t p e = .error (.castError m)) := by
  refine ⟨?_, ?_, ?_⟩
  · intro toks m hs hr
    simp [clookup, hs, hr]
  · intro toks el m hs hr hc
    simp [clookup, hs, hr, hc]
  · intro toks el m hs hr hc
    simp [clookup, hs, hr, hc]

/-- Witness for `c1_lookup_error_channel`: a missing key, a wrong node
kind at the end of the path, and a failed atom coercion, each at a
concrete input. -/
theorem c1_lookup_error_channel_witness :
    clookup .tLong "a" (element.group []) =
      .error (.lookupError "Config setting not found (a)")
    ∧ clookup .tLong "a" (element.group [("a", element.group [])]) =
      .error (.lookupError "Config setting not found (a)")
    ∧ clookup .tLong "a" (element.group [("a", element.atom (cvalue.vstring "x"))]) =
      .error (.castError bad_lexical_cast) := by
  refine ⟨?_, ?_, ?_⟩
  · exact (c1_lookup_error_channel .tLong "a" (element.group [])).1
      [.name "a"] "Element not found (a)" (by decide) (by decide)
  · exact (c1_lookup_error_channel .tLong "a" (element.group [("a", element.group [])])).2.1
      [.name "a"] (element.group []) "Config setting is not a group"
      (by decide) (by decide) (by decide)
  · exact (c1_lookup_error_channel .tLong "a"
      (element.group [("a", element.atom (cvalue.vstring "x"))])).2.2
      [.name "a"] (element.atom (cvalue.vstring "x")) bad_lexical_cast
      (by decide) (by decide) (by decide)

/-- Counterexample to claim C1 as stated: the coercion of the resolved
atom "x" to long fails, yet `lookup<long>("a")` does not fail with the
normalized "Config setting not found (a)" lookup error — the
`bad_lexical_cast` reaches the caller. -/
theorem c1_counterexample :
    clookup .tLong "a" (element.group [("a", element.atom (cvalue.vstring "x"))]) =
      .error (.castError bad_lexical_cast)
    ∧ cerr.castError bad_lexical_cast ≠
        cerr.lookupError "Config setting not found (a)" := by decide

/-- Claim C7: `lookup<T>(path, default)` returns the default exactly when
`lookup<T>(path)` fails with a `lookup_error`, returns the looked-up value
when it succeeds, and lets a coercion failure of the resolved atom
propagate to the caller instead of returning the default. -/
theorem c7_lookup_default (t : cpptype) (p : String) (d : cvalue) (e : element) :
    (∀ m, clookup t p e = .error (.lookupError m) → clookup_default t p d e = .ok d)
    ∧ (∀ v, clookup t p e = .ok v → clookup_default t p d e = .ok v)
    ∧ (∀ m, clookup t p e = .error (.castError m) →
        clookup_default t p d e = .error (.castError m)) := by
  refine ⟨?_, ?_, ?_⟩ <;> intro x h <;> simp [clookup_default, h]

/-- Witness for `c7_lookup_default`: a missing key yields the default, a
successful lookup yields its value, a failing coercion propagates. -/
theorem c7_lookup_default_witness :
    clookup_default .tLong "a" (cvalue.vlong 9) (element.group []) = .ok (cvalue.vlong 9)
    ∧ clookup_default .tLong "a" (cvalue.vlong 9)
        (element.group [("a", element.atom (cvalue.vlong 7))]) = .ok (cvalue.vlong 7)
    ∧ clookup_default .tLong "a" (cvalue.vlong 9)
        (element.group [("a", element.atom (cvalue.vstring "x"))]) =
      .error (.castError bad_lexical_cast) := by
  refine ⟨?_, ?_, ?_⟩
  · exact (c7_lookup_default .tLong "a" (cvalue.vlong 9) (element.group [])).1
      "Config setting not found (a)" (by decide)
  · exact (c7_lookup_default .tLong "a" (cvalue.vlong 9)
      (element.group [("a", element.atom (cvalue.vlong 7))])).2.1
      (cvalue.vlong 7) (by decide)
  · exact (c7_lookup_default .tLong "a" (cvalue.vlong 9)
      (element.group [("a", element.atom (cvalue.vstring "x"))])).2.2
      bad_lexical_cast (by decide)

/-- Claim C8: an atom schema accepts exactly the atoms whose runtime type
tag equals the declared tag, rejects an atom of a different tag with a
message naming the expected primitive kind ("string", "integer", "bool" or
"float"), and rejects any non-atom element with "Atom required". -/
theorem c8_atom_validate (t : cpptype) (req strict : Bool)
    (attrs : List (String × attrval)) (anc : List (String × Bool)) :
    (∀ v, cvalueType v = t →
        svalidate (.satom req attrs t) anc (.atom v) strict = .ok vtrue)
    ∧ (∀ v, cvalueType v ≠ t →
        svalidate (.satom req attrs t) anc (.atom v) strict =
          .ok ⟨false, snode_uri anc, "Type mismatch, " ++ typeName t ++ " required"⟩)
    ∧ (∀ gs, svalidate (.satom req attrs t) anc (.group gs) strict =
        .ok ⟨false, snode_uri anc, "Atom required"⟩)
    ∧ (∀ es, svalidate (.satom req attrs t) anc (.list es) strict =
        .ok ⟨false, snode_uri anc, "Atom required"⟩)
    ∧ (typeName .tString = "string" ∧ typeName .tLong = "integer"
        ∧ typeName .tBool = "bool" ∧ typeName .tDouble = "float") := by
  refine ⟨?_, ?_, ?_, ?_, ⟨rfl, rfl, rfl, rfl⟩⟩
  · intro v h
    simp [svalidate, as_atom, h]
  · intro v h
    simp [svalidate, as_atom, h]
  · intro gs
    simp [svalidate, as_atom]
  · intro es
    simp [svalidate, as_atom]

/-- Witness for `c8_atom_validate`: a matching long atom, a long atom
against a float schema, and a group against an atom schema. -/
theorem c8_atom_validate_witness :
    svalidate (.satom false [] .tLong) [("a", false)] (.atom (cvalue.vlong 1)) false = .ok vtrue
    ∧ svalidate (.satom false [] .tDouble) [("a", false)] (.atom (cvalue.vlong 1)) false =
      .ok ⟨false, "/a", "Type mismatch, float required"⟩
    ∧ svalidate (.satom false [] .tLong) [("a", false)] (.group []) false =
      .ok ⟨false, "/a", "Atom required"⟩ := by
  refine ⟨?_, ?_, ?_⟩
  · exact (c8_atom_validate .tLong false false [] [("a", false)]).1
      (cvalue.vlong 1) rfl
  · have h := (c8_atom_validate .tDouble false false [] [("a", false)]).2.1
      (cvalue.vlong 1) (by decide)
    simpa [snode_uri, uriElement] using h
  · have h := (c8_atom_validate .tLong false false [] [("a", false)]).2.2.1 []
    simpa [snode_uri, uriElement] using h

mutual

/-- A group that has, through group-children edges only, some entry whose
node carries `required_` or transitively contains one. -/
def hasReqGroupDesc : snode → Bool
  | .sgroup _ _ ch => anyReqChild ch
  | _ => false

/-- Some entry of a child map is required or transitively contains a
required entry through nested groups. -/
def anyReqChild : List (String × snode) → Bool
  | [] => false
  | (_, c) :: t => c.required || hasReqGroupDesc c || anyReqChild t

end

theorem anyReqChild_append (a b : List (String × snode)) :
    anyReqChild (a ++ b) = (anyReqChild a || anyReqChild b) := by
  induction a with
  | nil => simp [anyReqChild]
  | cons p t ih =>
    cases p with
    | mk k c => simp [anyReqChild, ih, Bool.or_assoc]

/-- Schema trees obtainable by the construction discipline of the schema
parser and the generated tree builder: nodes are created with
`required_ = false` (attributes may be added freely, they do not touch the
flag), group children are attached bottom-up with `group::add_child`, list
children with `list::add_child`. -/
inductive Built : snode → Prop where
  | atom (attrs : List (String × attrval)) (ty : cpptype) :
      Built (.satom false attrs ty)
  | egroup (attrs : List (String × attrval)) : Built (.sgroup false attrs [])
  | elist (attrs : List (String × attrval)) : Built (.slist false attrs [])
  | gadd (greq : Bool) (attrs : List (String × attrval))
      (ch : List (String × snode)) (name : String) (n : snode) (r : Bool) :
      Built (.sgroup greq attrs ch) → Built n →
      Built (group_add_child (.sgroup greq attrs ch) name n r)
  | ladd (lreq : Bool) (attrs : List (String × attrval))
      (ch : List snode) (n : snode) :
      Built (.slist lreq attrs ch) → Built n →
      Built (list_add_child (.slist lreq attrs ch) n)

theorem group_add_child_eq_true (greq : Bool) (attrs : List (String × attrval))
    (ch : List (String × snode)) (name : String) (n : snode) (r : Bool)
    (h : (r || n.required) = true) :
    group_add_child (.sgroup greq attrs ch) name n r =
      .sgroup true attrs (ch ++ [(name, n.setRequired true)]) := by
  show (if (r || n.required) = true then
      snode.sgroup true attrs (ch ++ [(name, n.setRequired true)])
    else snode.sgroup greq attrs (ch ++ [(name, n)])) =
    snode.sgroup true attrs (ch ++ [(name, n.setRequired true)])
  rw [if_pos h]

theorem group_add_child_eq_false (greq : Bool) (attrs : List (String × attrval))
    (ch : List (String × snode)) (name : String) (n : snode) (r : Bool)
    (h : (r || n.required) = false) :
    group_add_child (.sgroup greq attrs ch) name n r =
      .sgroup greq attrs (ch ++ [(name, n)]) := by
  show (if (r || n.required) = true then
      snode.sgroup true attrs (ch ++ [(name, n.setRequired true)])
    else snode.sgroup greq attrs (ch ++ [(name, n)])) =
    snode.sgroup greq attrs (ch ++ [(name, n)])
  rw [if_neg (by simp [h])]

/-- Claim C6: after `add_child(name, n, r)` on a group, if r is true or n
already carried `required_`, both the attached child's and the group's
required flags are true afterwards; if r is false and n was not required,
neither flag changes. Consequently, in every schema tree built by a
sequence of add_child calls, a group with a required descendant attached
through group edges is itself marked required. -/
theorem c6_required_propagation :
    (∀ (greq r : Bool) (attrs : List (String × attrval))
        (ch : List (String × snode)) (name : String) (n : snode),
      ((r || n.required) = true →
        group_add_child (.sgroup greq attrs ch) name n r =
          .sgroup true attrs (ch ++ [(name, n.setRequired true)])
        ∧ (n.setRequired true).required = true)
      ∧ ((r || n.required) = false →
        group_add_child (.sgroup greq attrs ch) name n r =
          .sgroup greq attrs (ch ++ [(name, n)])))
    ∧ (∀ n : snode, Built n → hasReqGroupDesc n = true → n.required = true) := by
  constructor
  · intro greq r attrs ch name n
    constructor
    · intro h
      refine ⟨group_add_child_eq_true greq attrs ch name n r h, ?_⟩
      cases n <;> simp [snode.setRequired, snode.required]
    · intro h
      exact group_add_child_eq_false greq attrs ch name n r h
  · intro n hb
    induction hb with
    | atom attrs ty => intro h; simp [hasReqGroupDesc] at h
    | egroup attrs => intro h; simp [hasReqGroupDesc, anyReqChild] at h
    | elist attrs => intro h; simp [hasReqGroupDesc] at h
    | gadd greq attrs ch name n r hg hn ihg ihn =>
      intro h
      by_cases hr : (r || n.required) = true
      · rw [group_add_child_eq_true greq attrs ch name n r hr]
        simp [snode.required]
      · have hr' : (r || n.required) = false := by simpa using hr
        rw [group_add_child_eq_false greq attrs ch name n r hr'] at h ⊢
        simp only [hasReqGroupDesc, anyReqChild_append, anyReqChild,
          Bool.or_false, Bool.or_eq_true] at h
        rcases h with h1 | h2 | h3
        · have hreq := ihg (by simp [hasReqGroupDesc, h1])
          simp only [snode.required] at hreq ⊢
          exact hreq
        · rw [h2] at hr'
          simp at hr'
        · have := ihn h3
          rw [this] at hr'
          simp at hr'
    | ladd lreq attrs ch n hl hn ihl ihn =>
      intro h
      simp [list_add_child, hasReqGroupDesc] at h

/-- Witness for `c6_required_propagation`: a two-level tree in which a
required atom was attached to an inner group (marking it required) and the
inner group was then attached, optional, to an outer group — which the
invariant nevertheless marks required. -/
theorem c6_required_propagation_witness :
    hasReqGroupDesc
      (.sgroup true [] [("g", .sgroup true [] [("x", .satom true [] .tLong)])]) = true
    ∧ snode.required
      (.sgroup true [] [("g", .sgroup true [] [("x", .satom true [] .tLong)])]) = true := by
  have hb1 : Built (.sgroup true [] [("x", .satom true [] .tLong)]) := by
    have h := Built.gadd false [] [] "x" (.satom false [] .tLong) true
      (.egroup []) (.atom [] .tLong)
    simpa [group_add_child, snode.setRequired, snode.required] using h
  have hb2 : Built
      (.sgroup true [] [("g", .sgroup true [] [("x", .satom true [] .tLong)])]) := by
    have h := Built.gadd false [] [] "g"
      (.sgroup true [] [("x", .satom true [] .tLong)]) false (.egroup []) hb1
    simpa [group_add_child, snode.setRequired, snode.required] using h
  have hreq : hasReqGroupDesc
      (.sgroup true [] [("g", .sgroup true [] [("x", .satom true [] .tLong)])]) = true := by
    simp [hasReqGroupDesc, anyReqChild, snode.required]
  exact ⟨hreq, c6_required_propagation.2 _ hb2 hreq⟩

/-- Claim C3 (evaluation of the code at the failing input): a list schema
carrying the attribute min=2 — stored as `long` by the schema parser and
the generated tree builder — throws the schema exception produced by
`get_attribute<int>` for every validated list, a 1-element and a 2-element
list alike, instead of returning a structured validation result: the
stored `long` can never be retrieved as `int`, so `boost::get` fails with
`bad_get` before the length comparison is reached. -/
theorem c3_min_attribute_throws :
    svalidate (.slist false [("min", .along 2)] [.satom false [] .tLong]) []
      (element.list [element.atom (cvalue.vlong 5)]) false
      = .error (.schemaError ("Invalid conversion requested for attribute min"
          ++ " (boost::bad_get: failed value get using boost::get)"))
    ∧ svalidate (.slist false [("min", .along 2)] [.satom false [] .tLong]) []
      (element.list [element.atom (cvalue.vlong 5), element.atom (cvalue.vlong 6)]) false
      = .error (.schemaError ("Invalid conversion requested for attribute min"
          ++ " (boost::bad_get: failed value get using boost::get)")) := by
  constructor <;>
    simp [svalidate, listElemsLoop, as_list, as_atom, cvalueType, minCheck,
      has_attribute, get_attribute, assocFind, attrTypeMatches, snode.isList, vtrue]

/-- A key without '.' or '[' — the form of every identifier the schema
grammar can produce. Such keys make `operator[]` take the plain map-get
branch. -/
def simpleKey (s : String) : Bool := !hasPathSep s

mutual

/-- Well-formedness of a schema tree as the schema grammar produces it:
every group child is attached under a simple identifier key. -/
def wfs : snode → Bool
  | .sgroup _ _ ch => wfsPairs ch
  | .slist _ _ ch => wfsList ch
  | .satom _ _ _ => true

/-- Well-formedness of a group child map. -/
def wfsPairs : List (String × snode) → Bool
  | [] => true
  | (k, c) :: t => simpleKey k && wfs c && wfsPairs t

/-- Well-formedness of a list child vector. -/
def wfsList : List snode → Bool
  | [] => true
  | c :: t => wfs c && wfsList t

end

theorem wfsPairs_mem {ch : List (String × snode)} (h : wfsPairs ch = true) :
    ∀ p ∈ ch, simpleKey p.1 = true ∧ wfs p.2 = true := by
  induction ch with
  | nil => intro p hp; cases hp
  | cons q t ih =>
    cases q with
    | mk k c =>
      simp only [wfsPairs, Bool.and_eq_true] at h
      intro p hp
      rcases List.mem_cons.mp hp with h1 | h2
      · subst h1; exact ⟨h.1.1, h.1.2⟩
      · exact ih h.2 p h2

theorem wfsList_mem {ch : List snode} (h : wfsList ch = true) :
    ∀ c ∈ ch, wfs c = true := by
  induction ch with
  | nil => intro c hc; cases hc
  | cons q t ih =>
    simp only [wfsList, Bool.and_eq_true] at h
    intro c hc
    rcases List.mem_cons.mp hc with h1 | h2
    · subst h1; exact h.1
    · exact ih h.2 c h2

/-- On a key without path separators, `operator[]` is exactly
`as_group().get(key)`. -/
theorem element_index_string_simple (e : element) (key : String)
    (h : simpleKey key = true) :
    element_index_string e key =
      (match as_group e with
       | .error er => .error er
       | .ok gs => group_get gs key) := by
  have h' : ¬ hasPathSep key = true := by
    rw [simpleKey] at h
    cases hk : hasPathSep key
    · simp
    · rw [hk] at h; cases h
  unfold element_index_string
  rw [if_neg h']

theorem assocFind_append {α : Type} (a b : List (String × α)) (k : String) :
    assocFind (a ++ b) k =
      (match assocFind a k with
       | some v => some v
       | none => assocFind b k) := by
  induction a with
  | nil => simp [assocFind]
  | cons p t ih =>
    cases p with
    | mk k2 v =>
      by_cases hk : k2 = k
      · simp [assocFind, hk]
      · simp [assocFind, hk, ih]

theorem assocFind_eq_none_of_not_mem {α : Type} (l : List (String × α))
    (k : String) (h : k ∉ l.map Prod.fst) :
    assocFind l k = none := by
  induction l with
  | nil => rfl
  | cons p t ih =>
    cases p with
    | mk k2 v =>
      simp only [List.map_cons, List.mem_cons, not_or] at h
      rw [assocFind, if_neg (fun he => h.1 he.symm)]
      exact ih h.2

theorem assocFind_middle_self {α : Type} (pre post : List (String × α))
    (k : String) (v : α) (h : k ∉ pre.map Prod.fst) :
    assocFind (pre ++ (k, v) :: post) k = some v := by
  rw [assocFind_append, assocFind_eq_none_of_not_mem pre k h]
  simp [assocFind]

theorem assocFind_middle {α : Type} (pre post : List (String × α))
    (k q : String) (v : α) (h : q ≠ k) :
    assocFind (pre ++ (k, v) :: post) q = assocFind (pre ++ post) q := by
  rw [assocFind_append, assocFind_append]
  cases assocFind pre q with
  | some w => simp
  | none =>
    simp only
    rw [assocFind, if_neg (fun he => h he.symm)]

/-- The fetch-then-validate chain of one iteration of the group child
loop. -/
def gclChain (c : snode) (name : String) (anc : List (String × Bool))
    (e : element) (strict : Bool) : Except cerr vresult :=
  match element_index_string e name with
  | .error er => .error er
  | .ok ce => svalidate c (anc ++ [(name, c.isList)]) ce strict

theorem groupChildrenLoop_nil (anc : List (String × Bool)) (e : element)
    (strict : Bool) : groupChildrenLoop [] anc e strict = .ok none := by
  simp [groupChildrenLoop]

theorem groupChildrenLoop_cons (name : String) (c : snode)
    (rest : List (String × snode)) (anc : List (String × Bool)) (e : element)
    (strict : Bool) :
    groupChildrenLoop ((name, c) :: rest) anc e strict =
      (match gclChain c name anc e strict with
       | .ok r =>
         if r.valid then groupChildrenLoop rest anc e strict else .ok (some r)
       | .error (.lookupError _) =>
         if c.required then
           .ok (some ⟨false, snode_uri anc,
             "Missing required attribute \x27" ++ name ++ "\x27"⟩)
         else groupChildrenLoop rest anc e strict
       | .error (.castError m) => .error (.castError m)
       | .error (.schemaError m) => .error (.schemaError m)
       | .error .undefinedBehavior => .error .undefinedBehavior) := by
  simp only [groupChildrenLoop]
  rfl

theorem listElemsLoop_nil (ch : List snode) (anc : List (String × Bool))
    (strict : Bool) : listElemsLoop ch anc [] strict = .ok none := by
  simp [listElemsLoop]

theorem listElemsLoop_cons_nilch (anc : List (String × Bool)) (el : element)
    (rest : List element) (strict : Bool) :
    listElemsLoop [] anc (el :: rest) strict = .error .undefinedBehavior := by
  simp [listElemsLoop]

theorem listElemsLoop_cons (c : snode) (crest : List snode)
    (anc : List (String × Bool)) (el : element) (rest : List element)
    (strict : Bool) :
    listElemsLoop (c :: crest) anc (el :: rest) strict =
      (match svalidate c (anc ++ [("", c.isList)]) el strict with
       | .error er => .error er
       | .ok r =>
         if r.valid then listElemsLoop (c :: crest) anc rest strict
         else .ok (some r)) := by
  simp only [listElemsLoop]

theorem groupChildrenLoop_append (xs ys : List (String × snode))
    (anc : List (String × Bool)) (e : element) (strict : Bool) :
    groupChildrenLoop (xs ++ ys) anc e strict =
      (match groupChildrenLoop xs anc e strict with
       | .ok none => groupChildrenLoop ys anc e strict
       | r => r) := by
  induction xs with
  | nil => simp [groupChildrenLoop_nil]
  | cons p t ih =>
    cases p with
    | mk name c =>
      rw [List.cons_append, groupChildrenLoop_cons, groupChildrenLoop_cons]
      cases gclChain c name anc e strict with
      | ok r =>
        by_cases hv : r.valid = true
        · simp [hv, ih]
        · simp [hv]
      | error er =>
        cases er with
        | lookupError m =>
          by_cases hr : c.required = true
          · simp [hr]
          · simp [hr, ih]
        | castError m => simp
        | schemaError m => simp
        | undefinedBehavior => simp

theorem listElemsLoop_append (ch : List snode) (anc : List (String × Bool))
    (xs ys : List element) (strict : Bool) :
    listElemsLoop ch anc (xs ++ ys) strict =
      (match listElemsLoop ch anc xs strict with
       | .ok none => listElemsLoop ch anc ys strict
       | r => r) := by
  induction xs with
  | nil => simp [listElemsLoop_nil]
  | cons el t ih =>
    cases ch with
    | nil => rw [List.cons_append, listElemsLoop_cons_nilch, listElemsLoop_cons_nilch]
    | cons c crest =>
      rw [List.cons_append, listElemsLoop_cons, listElemsLoop_cons]
      cases svalidate c (anc ++ [("", c.isList)]) el strict with
      | ok r =>
        by_cases hv : r.valid = true
        · simp [hv, ih]
        · simp [hv]
      | error er => simp

theorem groupChildrenLoop_some_invalid (xs : List (String × snode))
    (anc : List (String × Bool)) (e : element) (strict : Bool) (r : vresult)
    (h : groupChildrenLoop xs anc e strict = .ok (some r)) : r.valid = false := by
  induction xs with
  | nil => rw [groupChildrenLoop_nil] at h; simp at h
  | cons p t ih =>
    cases p with
    | mk name c =>
      rw [groupChildrenLoop_cons] at h
      cases hc : gclChain c name anc e strict with
      | ok r2 =>
        simp only [hc] at h
        by_cases hv : r2.valid = true
        · rw [if_pos hv] at h; exact ih h
        · rw [if_neg hv] at h
          simp only [Except.ok.injEq, Option.some.injEq] at h
          subst h
          simpa using hv
      | error er =>
        simp only [hc] at h
        cases er with
        | lookupError m =>
          simp only [] at h
          by_cases hr : c.required = true
          · rw [if_pos hr] at h
            simp only [Except.ok.injEq, Option.some.injEq] at h
            subst h
            rfl
          · rw [if_neg hr] at h; exact ih h
        | castError m => simp at h
        | schemaError m => simp at h
        | undefinedBehavior => simp at h

theorem listElemsLoop_some_invalid (ch : List snode)
    (anc : List (String × Bool)) (elems : List element) (strict : Bool)
    (r : vresult) (h : listElemsLoop ch anc elems strict = .ok (some r)) :
    r.valid = false := by
  induction elems with
  | nil => rw [listElemsLoop_nil] at h; simp at h
  | cons el t ih =>
    cases ch with
    | nil => rw [listElemsLoop_cons_nilch] at h; simp at h
    | cons c crest =>
      rw [listElemsLoop_cons] at h
      cases hc : svalidate c (anc ++ [("", c.isList)]) el strict with
      | ok r2 =>
        simp only [hc] at h
        by_cases hv : r2.valid = true
        · rw [if_pos hv] at h; exact ih h
        · rw [if_neg hv] at h
          simp only [Except.ok.injEq, Option.some.injEq] at h
          subst h
          simpa using hv
      | error er => simp [hc] at h

theorem strictLoop_nil (ch : List (String × snode)) (u : String) :
    strictLoop ch [] u = none := rfl

theorem strictLoop_cons (ch : List (String × snode)) (key : String)
    (v : element) (rest : List (String × element)) (u : String) :
    strictLoop ch ((key, v) :: rest) u =
      (match assocFind ch key with
       | some _ => strictLoop ch rest u
       | none => some ⟨false, u,
           "Attribute \x27" ++ key ++ "\x27 not found in schema "
             ++ "(strict validation). This might possibly be a typo."⟩) := rfl

theorem strictLoop_append (ch : List (String × snode))
    (xs ys : List (String × element)) (u : String) :
    strictLoop ch (xs ++ ys) u =
      (match strictLoop ch xs u with
       | none => strictLoop ch ys u
       | some r => some r) := by
  induction xs with
  | nil => simp [strictLoop_nil]
  | cons p t ih =>
    cases p with
    | mk key v =>
      rw [List.cons_append, strictLoop_cons, strictLoop_cons]
      cases assocFind ch key with
      | some w => simp [ih]
      | none => simp

theorem strictLoop_some_invalid (ch : List (String × snode))
    (xs : List (String × element)) (u : String) (r : vresult)
    (h : strictLoop ch xs u = some r) : r.valid = false := by
  induction xs with
  | nil => rw [strictLoop_nil] at h; cases h
  | cons p t ih =>
    cases p with
    | mk key v =>
      rw [strictLoop_cons] at h
      cases hf : assocFind ch key with
      | some w => simp only [hf] at h; exact ih h
      | none =>
        simp only [hf, Option.some.injEq] at h
        subst h
        rfl

theorem minCheck_some_invalid (attrs : List (String × attrval)) (u : String)
    (len : Nat) (r : vresult) (h : minCheck attrs u len = .ok (some r)) :
    r.valid = false := by
  unfold minCheck at h
  by_cases hm : has_attribute attrs "min" = true
  · rw [if_pos hm] at h
    cases hg : get_attribute attrs .tyInt "min" with
    | error er => simp [hg] at h
    | ok v =>
      simp only [hg] at h
      by_cases hl : (len : Int) < attrIntValue v
      · rw [if_pos hl] at h
        simp only [Except.ok.injEq, Option.some.injEq] at h
        subst h
        rfl
      · rw [if_neg hl] at h; simp at h
  · rw [if_neg hm] at h; simp at h

theorem groupChildrenLoop_no_lookupError (xs : List (String × snode))
    (anc : List (String × Bool)) (e : element) (strict : Bool) (m : String) :
    groupChildrenLoop xs anc e strict ≠ .error (.lookupError m) := by
  induction xs with
  | nil => rw [groupChildrenLoop_nil]; simp
  | cons p t ih =>
    cases p with
    | mk name c =>
      rw [groupChildrenLoop_cons]
      cases gclChain c name anc e strict with
      | ok r =>
        simp only []
        by_cases hv : r.valid = true
        · rw [if_pos hv]; exact ih
        · rw [if_neg hv]; simp
      | error er =>
        cases er with
        | lookupError m2 =>
          simp only []
          by_cases hr : c.required = true
          · rw [if_pos hr]; simp
          · rw [if_neg hr]; exact ih
        | castError m2 => simp
        | schemaError m2 => simp
        | undefinedBehavior => simp

theorem svalidate_no_lookupError (n : snode) (anc : List (String × Bool))
    (e : element) (strict : Bool) (m : String) :
    svalidate n anc e strict ≠ .error (.lookupError m) := by
  cases n with
  | sgroup req attrs ch =>
    simp only [svalidate]
    cases as_group e with
    | error er => simp
    | ok gs =>
      simp only
      cases hg : groupChildrenLoop ch anc e strict with
      | ok o =>
        cases o with
        | none =>
          by_cases hs : strict = true
          · rw [if_pos hs]
            cases strictLoop ch gs (snode_uri anc) <;> simp
          · rw [if_neg hs]; simp
        | some r => simp
      | error er =>
        cases er with
        | lookupError m2 => exact absurd hg (groupChildrenLoop_no_lookupError ch anc e strict m2)
        | castError m2 => simp
        | schemaError m2 => simp
        | undefinedBehavior => simp
  | slist req attrs ch =>
    simp only [svalidate]
    cases as_list e with
    | error er => simp
    | ok elems =>
      simp only
      cases listElemsLoop ch anc elems strict with
      | ok o =>
        cases o with
        | none =>
          cases minCheck attrs (snode_uri anc) elems.length with
          | ok o2 => cases o2 <;> simp
          | error er =>
            cases er with
            | lookupError m2 => simp
            | castError m2 => simp
            | schemaError m2 => simp
            | undefinedBehavior => simp
        | some r => simp
      | error er =>
        cases er with
        | lookupError m2 => simp
        | castError m2 => simp
        | schemaError m2 => simp
        | undefinedBehavior => simp
  | satom req attrs ty =>
    simp only [svalidate]
    cases as_atom e with
    | error er => simp
    | ok v =>
      simp only
      by_cases ht : cvalueType v ≠ ty
      · rw [if_pos ht]; simp
      · rw [if_neg ht]; simp

theorem svalidate_ok_valid_eq (n : snode) (anc : List (String × Bool))
    (e : element) (strict : Bool) (r : vresult)
    (h : svalidate n anc e strict = .ok r) (hv : r.valid = true) : r = vtrue := by
  cases n with
  | sgroup req attrs ch =>
    simp only [svalidate] at h
    cases hge : as_group e with
    | error er =>
      simp only [hge, Except.ok.injEq] at h
      rw [← h] at hv
      cases hv
    | ok gs =>
      simp only [hge] at h
      cases hg : groupChildrenLoop ch anc e strict with
      | ok o =>
        simp only [hg] at h
        cases o with
        | none =>
          simp only [] at h
          by_cases hs : strict = true
          · rw [if_pos hs] at h
            cases hsl : strictLoop ch gs (snode_uri anc) with
            | none =>
              simp only [hsl, Except.ok.injEq] at h
              exact h.symm
            | some r2 =>
              simp only [hsl, Except.ok.injEq] at h
              rw [← h] at hv
              rw [strictLoop_some_invalid ch gs (snode_uri anc) r2 hsl] at hv
              cases hv
          · rw [if_neg hs] at h
            simp only [Except.ok.injEq] at h
            exact h.symm
        | some r2 =>
          simp only [Except.ok.injEq] at h
          rw [← h] at hv
          rw [groupChildrenLoop_some_invalid ch anc e strict r2 hg] at hv
          cases hv
      | error er => simp only [hg] at h; cases er <;> simp at h
  | slist req attrs ch =>
    simp only [svalidate] at h
    cases hle : as_list e with
    | error er =>
      simp only [hle, Except.ok.injEq] at h
      rw [← h] at hv
      cases hv
    | ok elems =>
      simp only [hle] at h
      cases hl : listElemsLoop ch anc elems strict with
      | ok o =>
        simp only [hl] at h
        cases o with
        | none =>
          simp only [] at h
          cases hm : minCheck attrs (snode_uri anc) elems.length with
          | ok o2 =>
            simp only [hm] at h
            cases o2 with
            | none => simp only [Except.ok.injEq] at h; exact h.symm
            | some r2 =>
              simp only [Except.ok.injEq] at h
              rw [← h] at hv
              rw [minCheck_some_invalid attrs (snode_uri anc) elems.length r2 hm] at hv
              cases hv
          | error er =>
            simp only [hm] at h
            cases er with
            | lookupError m2 =>
              simp only [Except.ok.injEq] at h
              rw [← h] at hv
              cases hv
            | castError m2 => simp at h
            | schemaError m2 => simp at h
            | undefinedBehavior => simp at h
        | some r2 =>
          simp only [Except.ok.injEq] at h
          rw [← h] at hv
          rw [listElemsLoop_some_invalid ch anc elems strict r2 hl] at hv
          cases hv
      | error er =>
        simp only [hl] at h
        cases er with
        | lookupError m2 =>
          simp only [Except.ok.injEq] at h
          rw [← h] at hv
          cases hv
        | castError m2 => simp at h
        | schemaError m2 => simp at h
        | undefinedBehavior => simp at h
  | satom req attrs ty =>
    simp only [svalidate] at h
    cases hae : as_atom e with
    | error er =>
      simp only [hae, Except.ok.injEq] at h
      rw [← h] at hv
      cases hv
    | ok v =>
      simp only [hae] at h
      by_cases ht : cvalueType v ≠ ty
      · rw [if_pos ht] at h
        simp only [Except.ok.injEq] at h
        rw [← h] at hv
        cases hv
      · rw [if_neg ht] at h
        simp only [Except.ok.injEq] at h
        exact h.symm

/-- Structural induction principle for schema nodes, giving the inductive
hypothesis at every member of the child containers. -/
theorem snode_ind {motive : snode → Prop}
    (hatom : ∀ r a t, motive (.satom r a t))
    (hlist : ∀ r a ch, (∀ c ∈ ch, motive c) → motive (.slist r a ch))
    (hgroup : ∀ r a ch, (∀ p ∈ ch, motive p.2) → motive (.sgroup r a ch)) :
    ∀ n, motive n
  | .satom r a t => hatom r a t
  | .slist r a ch =>
    hlist r a ch (fun c hc => snode_ind hatom hlist hgroup c)
  | .sgroup r a ch =>
    hgroup r a ch (fun p hp => snode_ind hatom hlist hgroup p.2)
termination_by n => sizeOf n
decreasing_by
  · have h1 := List.sizeOf_lt_of_mem hc
    simp only [snode.slist.sizeOf_spec]
    omega
  · have h1 := List.sizeOf_lt_of_mem hp
    have h2 : sizeOf p.2 < sizeOf p := by
      obtain ⟨x, y⟩ := p
      simp only [Prod.mk.sizeOf_spec]
      omega
    simp only [snode.sgroup.sizeOf_spec]
    omega

theorem groupChildrenLoop_mono (xs : List (String × snode))
    (anc : List (String × Bool)) (e : element)
    (hm : ∀ p ∈ xs, ∀ anc2 e2, svalidate p.2 anc2 e2 true = .ok vtrue →
      svalidate p.2 anc2 e2 false = .ok vtrue)
    (h : groupChildrenLoop xs anc e true = .ok none) :
    groupChildrenLoop xs anc e false = .ok none := by
  induction xs with
  | nil => rw [groupChildrenLoop_nil]
  | cons p t ih =>
    cases p with
    | mk name c =>
      rw [groupChildrenLoop_cons] at h ⊢
      cases hf : element_index_string e name with
      | error er =>
        have hct : gclChain c name anc e true = .error er := by
          simp [gclChain, hf]
        have hcf : gclChain c name anc e false = .error er := by
          simp [gclChain, hf]
        simp only [hct] at h
        simp only [hcf]
        cases er with
        | lookupError m =>
          simp only [] at h ⊢
          by_cases hr : c.required = true
          · rw [if_pos hr] at h; simp at h
          · rw [if_neg hr] at h
            rw [if_neg hr]
            exact ih (fun q hq => hm q (List.mem_cons_of_mem _ hq)) h
        | castError m => simp at h
        | schemaError m => simp at h
        | undefinedBehavior => simp at h
      | ok ce =>
        have hct : gclChain c name anc e true =
            svalidate c (anc ++ [(name, c.isList)]) ce true := by
          simp [gclChain, hf]
        have hcf : gclChain c name anc e false =
            svalidate c (anc ++ [(name, c.isList)]) ce false := by
          simp [gclChain, hf]
        rw [hct] at h
        cases hv : svalidate c (anc ++ [(name, c.isList)]) ce true with
        | ok r =>
          simp only [hv] at h
          by_cases hvv : r.valid = true
          · have hr : r = vtrue := svalidate_ok_valid_eq _ _ _ _ _ hv hvv
            rw [if_pos hvv] at h
            have hfalse := hm (name, c) (List.mem_cons_self _ _)
              (anc ++ [(name, c.isList)]) ce (hr ▸ hv)
            rw [hcf, hfalse]
            simp only []
            rw [if_pos (by rfl : vtrue.valid = true)]
            exact ih (fun q hq => hm q (List.mem_cons_of_mem _ hq)) h
          · rw [if_neg hvv] at h; simp at h
        | error er =>
          cases er with
          | lookupError m =>
            exact absurd hv
              (svalidate_no_lookupError c (anc ++ [(name, c.isList)]) ce true m)
          | castError m => simp [hv] at h
          | schemaError m => simp [hv] at h
          | undefinedBehavior => simp [hv] at h

theorem listElemsLoop_mono (ch : List snode) (anc : List (String × Bool))
    (elems : List element)
    (hm : ∀ c ∈ ch, ∀ anc2 e2, svalidate c anc2 e2 true = .ok vtrue →
      svalidate c anc2 e2 false = .ok vtrue)
    (h : listElemsLoop ch anc elems true = .ok none) :
    listElemsLoop ch anc elems false = .ok none := by
  induction elems with
  | nil => rw [listElemsLoop_nil]
  | cons el t ih =>
    cases ch with
    | nil => rw [listElemsLoop_cons_nilch] at h; simp at h
    | cons c crest =>
      rw [listElemsLoop_cons] at h ⊢
      cases hv : svalidate c (anc ++ [("", c.isList)]) el true with
      | ok r =>
        simp only [hv] at h
        by_cases hvv : r.valid = true
        · have hr : r = vtrue := svalidate_ok_valid_eq _ _ _ _ _ hv hvv
          rw [if_pos hvv] at h
          have hfalse := hm c (List.mem_cons_self _ _)
            (anc ++ [("", c.isList)]) el (hr ▸ hv)
          rw [hfalse]
          simp only []
          rw [if_pos (by rfl : vtrue.valid = true)]
          exact ih h
        · rw [if_neg hvv] at h; simp at h
      | error er => simp [hv] at h

/-- Validity is monotone from strict to non-strict validation: a tree that
passes strict validation passes permissive validation. -/
theorem svalidate_mono :
    ∀ n (anc : List (String × Bool)) (e : element),
      svalidate n anc e true = .ok vtrue → svalidate n anc e false = .ok vtrue := by
  refine snode_ind ?_ ?_ ?_
  · intro r a t anc e h
    simp only [svalidate] at h ⊢
    exact h
  · intro r a ch ihm anc e h
    simp only [svalidate] at h ⊢
    cases hle : as_list e with
    | error er => simp only [hle] at h ⊢; exact h
    | ok elems =>
      simp only [hle] at h ⊢
      cases hl : listElemsLoop ch anc elems true with
      | ok o =>
        cases o with
        | none =>
          rw [listElemsLoop_mono ch anc elems
            (fun c hc anc2 e2 => ihm c hc anc2 e2) hl]
          simp only [hl] at h
          exact h
        | some r2 =>
          simp only [hl] at h
          simp only [Except.ok.injEq] at h
          rw [h] at hl
          have := listElemsLoop_some_invalid ch anc elems true vtrue hl
          cases this
      | error er =>
        simp only [hl] at h
        cases er with
        | lookupError m =>
          simp only [Except.ok.injEq] at h
          exact absurd h.symm (by intro hx; cases hx)
        | castError m => cases h
        | schemaError m => cases h
        | undefinedBehavior => cases h
  · intro r a ch ihm anc e h
    simp only [svalidate] at h ⊢
    cases hge : as_group e with
    | error er => simp only [hge] at h ⊢; exact h
    | ok gs =>
      simp only [hge] at h ⊢
      cases hg : groupChildrenLoop ch anc e true with
      | ok o =>
        cases o with
        | none =>
          rw [groupChildrenLoop_mono ch anc e
            (fun p hp anc2 e2 => ihm p hp anc2 e2) hg]
          simp
        | some r2 =>
          simp only [hg] at h
          simp only [Except.ok.injEq] at h
          rw [h] at hg
          have := groupChildrenLoop_some_invalid ch anc e true vtrue hg
          cases this
      | error er =>
        simp only [hg] at h
        cases er <;> cases h

theorem svalidate_group_ok_vtrue (req : Bool) (attrs : List (String × attrval))
    (ch : List (String × snode)) (anc : List (String × Bool))
    (es : List (String × element)) (strict : Bool)
    (h : svalidate (.sgroup req attrs ch) anc (.group es) strict = .ok vtrue) :
    groupChildrenLoop ch anc (.group es) strict = .ok none
    ∧ (strict = true → strictLoop ch es (snode_uri anc) = none) := by
  simp only [svalidate, as_group] at h
  cases hg : groupChildrenLoop ch anc (.group es) strict with
  | error er => simp only [hg] at h; cases er <;> cases h
  | ok o =>
    cases o with
    | some r2 =>
      simp only [hg, Except.ok.injEq] at h
      rw [h] at hg
      have := groupChildrenLoop_some_invalid _ _ _ _ _ hg
      cases this
    | none =>
      refine ⟨rfl, ?_⟩
      intro hs
      subst hs
      simp only [hg] at h
      cases hsl : strictLoop ch es (snode_uri anc) with
      | none => rfl
      | some r2 =>
        simp only [hsl] at h
        simp only [if_true, Except.ok.injEq] at h
        rw [h] at hsl
        have := strictLoop_some_invalid _ _ _ _ hsl
        cases this

theorem svalidate_list_ok_vtrue (req : Bool) (attrs : List (String × attrval))
    (ch : List snode) (anc : List (String × Bool)) (es : List element)
    (strict : Bool)
    (h : svalidate (.slist req attrs ch) anc (.list es) strict = .ok vtrue) :
    listElemsLoop ch anc es strict = .ok none
    ∧ minCheck attrs (snode_uri anc) es.length = .ok none := by
  simp only [svalidate, as_list] at h
  cases hl : listElemsLoop ch anc es strict with
  | error er => simp only [hl] at h; cases er <;> cases h
  | ok o =>
    cases o with
    | some r2 =>
      simp only [hl, Except.ok.injEq] at h
      rw [h] at hl
      have := listElemsLoop_some_invalid _ _ _ _ _ hl
      cases this
    | none =>
      refine ⟨rfl, ?_⟩
      simp only [hl] at h
      cases hm : minCheck attrs (snode_uri anc) es.length with
      | error er => simp only [hm] at h; cases er <;> cases h
      | ok o2 =>
        cases o2 with
        | none => rfl
        | some r2 =>
          simp only [hm, Except.ok.injEq] at h
          rw [h] at hm
          have := minCheck_some_invalid _ _ _ _ hm
          cases this

theorem svalidate_group_of_loop_some (req : Bool)
    (attrs : List (String × attrval)) (ch : List (String × snode))
    (anc : List (String × Bool)) (es : List (String × element)) (strict : Bool)
    (r : vresult)
    (hg : groupChildrenLoop ch anc (.group es) strict = .ok (some r)) :
    svalidate (.sgroup req attrs ch) anc (.group es) strict = .ok r := by
  simp only [svalidate, as_group, hg]

theorem svalidate_group_of_strict_fail (req : Bool)
    (attrs : List (String × attrval)) (ch : List (String × snode))
    (anc : List (String × Bool)) (es : List (String × element)) (r : vresult)
    (hg : groupChildrenLoop ch anc (.group es) true = .ok none)
    (hs : strictLoop ch es (snode_uri anc) = some r) :
    svalidate (.sgroup req attrs ch) anc (.group es) true = .ok r := by
  simp only [svalidate, as_group, hg, hs]
  simp

theorem svalidate_list_of_loop_some (req : Bool)
    (attrs : List (String × attrval)) (ch : List snode)
    (anc : List (String × Bool)) (es : List element) (strict : Bool)
    (r : vresult)
    (hl : listElemsLoop ch anc es strict = .ok (some r)) :
    svalidate (.slist req attrs ch) anc (.list es) strict = .ok r := by
  simp only [svalidate, as_list, hl]

theorem gcl_append_ok_none (xs ys : List (String × snode))
    (anc : List (String × Bool)) (e : element) (strict : Bool)
    (h : groupChildrenLoop (xs ++ ys) anc e strict = .ok none) :
    groupChildrenLoop xs anc e strict = .ok none
    ∧ groupChildrenLoop ys anc e strict = .ok none := by
  rw [groupChildrenLoop_append] at h
  cases hx : groupChildrenLoop xs anc e strict with
  | ok o =>
    cases o with
    | none => exact ⟨rfl, by simpa [hx] using h⟩
    | some r => simp [hx] at h
  | error er => simp [hx] at h

theorem lel_append_ok_none (ch : List snode) (anc : List (String × Bool))
    (xs ys : List element) (strict : Bool)
    (h : listElemsLoop ch anc (xs ++ ys) strict = .ok none) :
    listElemsLoop ch anc xs strict = .ok none
    ∧ listElemsLoop ch anc ys strict = .ok none := by
  rw [listElemsLoop_append] at h
  cases hx : listElemsLoop ch anc xs strict with
  | ok o =>
    cases o with
    | none => exact ⟨rfl, by simpa [hx] using h⟩
    | some r => simp [hx] at h
  | error er => simp [hx] at h

theorem gclChain_fetch_congr (c : snode) (name : String)
    (anc : List (String × Bool)) (strict : Bool) (e1 e2 : element)
    (hf : element_index_string e1 name = element_index_string e2 name) :
    gclChain c name anc e1 strict = gclChain c name anc e2 strict := by
  simp only [gclChain, hf]

theorem groupChildrenLoop_congr (xs : List (String × snode))
    (anc : List (String × Bool)) (e1 e2 : element) (strict : Bool)
    (hch : ∀ p ∈ xs, gclChain p.2 p.1 anc e1 strict = gclChain p.2 p.1 anc e2 strict) :
    groupChildrenLoop xs anc e1 strict = groupChildrenLoop xs anc e2 strict := by
  induction xs with
  | nil => rw [groupChildrenLoop_nil, groupChildrenLoop_nil]
  | cons p t ih =>
    cases p with
    | mk name c =>
      rw [groupChildrenLoop_cons, groupChildrenLoop_cons]
      rw [← hch (name, c) (List.mem_cons_self _ _)]
      have ih2 := ih (fun q hq => hch q (List.mem_cons_of_mem _ hq))
      cases gclChain c name anc e1 strict with
      | ok r =>
        by_cases hv : r.valid = true
        · simp [hv, ih2]
        · simp [hv]
      | error er =>
        cases er with
        | lookupError m =>
          by_cases hr : c.required = true
          · simp [hr]
          · simp [hr, ih2]
        | castError m => simp
        | schemaError m => simp
        | undefinedBehavior => simp

/-- On a simple key, `operator[]` on a group is the plain map get. -/
theorem fetch_group_simple (es : List (String × element)) (key : String)
    (h : simpleKey key = true) :
    element_index_string (.group es) key = group_get es key := by
  rw [element_index_string_simple _ _ h]
  simp [as_group]

/-- Fetching a simple key not at the middle entry ignores that entry. -/
theorem fetch_middle_ne (pre post : List (String × element)) (key k : String)
    (v : element) (hsk : simpleKey key = true) (hne : key ≠ k) :
    element_index_string (.group (pre ++ (k, v) :: post)) key =
      element_index_string (.group (pre ++ post)) key := by
  rw [fetch_group_simple _ _ hsk, fetch_group_simple _ _ hsk]
  simp only [group_get, assocFind_middle pre post k key v hne]

/-- Fetching the middle entry's own key returns its value. -/
theorem fetch_middle_self (pre post : List (String × element)) (k : String)
    (v : element) (hsk : simpleKey k = true) (hpre : k ∉ pre.map Prod.fst) :
    element_index_string (.group (pre ++ (k, v) :: post)) k = .ok v := by
  rw [fetch_group_simple _ _ hsk]
  simp only [group_get, assocFind_middle_self pre post k v hpre]

/-- Fetching an absent simple key fails with the map's lookup error. -/
theorem fetch_missing (es : List (String × element)) (k : String)
    (hsk : simpleKey k = true) (h : assocFind es k = none) :
    element_index_string (.group es) k =
      .error (.lookupError ("Element not found (" ++ k ++ ")")) := by
  rw [fetch_group_simple _ _ hsk]
  simp only [group_get, h]

/-- The relation between a schema tree, an element tree, and the element
tree obtained from it by removing one required atom leaf from the group
that holds it. The last two indices carry the removed entry's key and the
uri of the schema group that declared the leaf (the node whose `validate`
reports the failure). The element tree is traversed along schema edges:
either the leaf's parent group is here, or it sits inside a schema child
of a group, or inside the single child of a list schema. The key-freshness
hypotheses record what `std::map` guarantees for the entry lists. -/
inductive RemovedLeaf :
    snode → List (String × Bool) → element → element → String → String → Prop where
  | here (greq : Bool) (sattrs lattrs : List (String × attrval))
      (spre spost : List (String × snode)) (anc : List (String × Bool))
      (name : String) (lty : cpptype) (pre post : List (String × element))
      (ce : element)
      (hspre : name ∉ spre.map Prod.fst)
      (hpre : name ∉ pre.map Prod.fst) (hpost : name ∉ post.map Prod.fst) :
      RemovedLeaf
        (.sgroup greq sattrs (spre ++ (name, .satom true lattrs lty) :: spost))
        anc (.group (pre ++ (name, ce) :: post)) (.group (pre ++ post))
        name (snode_uri anc)
  | via_group (sgreq : Bool) (sattrs : List (String × attrval))
      (spre spost : List (String × snode)) (n0 : String) (c0 : snode)
      (anc : List (String × Bool)) (pre post : List (String × element))
      (ce ce' : element) (name u : String)
      (hspre : n0 ∉ spre.map Prod.fst) (hspost : n0 ∉ spost.map Prod.fst)
      (hpre : n0 ∉ pre.map Prod.fst)
      (hrec : RemovedLeaf c0 (anc ++ [(n0, c0.isList)]) ce ce' name u) :
      RemovedLeaf (.sgroup sgreq sattrs (spre ++ (n0, c0) :: spost)) anc
        (.group (pre ++ (n0, ce) :: post)) (.group (pre ++ (n0, ce') :: post))
        name u
  | via_list (slreq : Bool) (sattrs : List (String × attrval))
      (c0 : snode) (crest : List snode) (anc : List (String × Bool))
      (epre epost : List element) (ce ce' : element) (name u : String)
      (hrec : RemovedLeaf c0 (anc ++ [("", c0.isList)]) ce ce' name u) :
      RemovedLeaf (.slist slreq sattrs (c0 :: crest)) anc
        (.list (epre ++ ce :: epost)) (.list (epre ++ ce' :: epost)) name u

/-- Claim C2 (amended): removing one required atom leaf from a tree that
validates successfully produces valid=false, with the location equal to
the uri of the schema group that declares the leaf (the leaf's parent),
and the message "Missing required attribute 'name'". -/
theorem c2_missing_required_location (S : snode) (anc : List (String × Bool))
    (E E2 : element) (name u : String) (strict : Bool)
    (hrm : RemovedLeaf S anc E E2 name u)
    (hwf : wfs S = true)
    (hok : svalidate S anc E strict = .ok vtrue) :
    svalidate S anc E2 strict =
      .ok ⟨false, u, "Missing required attribute \x27" ++ name ++ "\x27"⟩ := by
  induction hrm with
  | here greq sattrs lattrs spre spost anc2 nm lty pre post ce hspre hpre hpost =>
    obtain ⟨hloop, _⟩ := svalidate_group_ok_vtrue _ _ _ _ _ _ hok
    have hwfp : wfsPairs (spre ++ (nm, .satom true lattrs lty) :: spost) = true := by
      simpa [wfs] using hwf
    have hsknm : simpleKey nm = true :=
      (wfsPairs_mem hwfp (nm, .satom true lattrs lty) (by simp)).1
    obtain ⟨hpreE, _⟩ := gcl_append_ok_none _ _ _ _ _ hloop
    have hpreE2 : groupChildrenLoop spre anc2 (.group (pre ++ post)) strict = .ok none := by
      rw [groupChildrenLoop_congr spre anc2 (.group (pre ++ post))
        (.group (pre ++ (nm, ce) :: post)) strict ?_]
      · exact hpreE
      · intro p hp
        apply gclChain_fetch_congr
        have hsk := (wfsPairs_mem hwfp p (List.mem_append_left _ hp)).1
        have hne : p.1 ≠ nm := by
          intro he
          exact hspre (he ▸ List.mem_map_of_mem Prod.fst hp)
        exact (fetch_middle_ne pre post p.1 nm ce hsk hne).symm
    have hfetch : element_index_string (.group (pre ++ post)) nm =
        .error (.lookupError ("Element not found (" ++ nm ++ ")")) := by
      apply fetch_missing _ _ hsknm
      rw [assocFind_append,
        assocFind_eq_none_of_not_mem pre nm hpre,
        assocFind_eq_none_of_not_mem post nm hpost]
    have hloop2 : groupChildrenLoop
        (spre ++ (nm, .satom true lattrs lty) :: spost) anc2
        (.group (pre ++ post)) strict =
        .ok (some ⟨false, snode_uri anc2,
          "Missing required attribute \x27" ++ nm ++ "\x27"⟩) := by
      rw [groupChildrenLoop_append, hpreE2]
      simp only []
      rw [groupChildrenLoop_cons]
      have hchain : gclChain (.satom true lattrs lty) nm anc2
          (.group (pre ++ post)) strict =
          .error (.lookupError ("Element not found (" ++ nm ++ ")")) := by
        simp [gclChain, hfetch]
      rw [hchain]
      simp only []
      have hreq : (snode.satom true lattrs lty).required = true := rfl
      rw [if_pos hreq]
    exact svalidate_group_of_loop_some _ _ _ _ _ _ _ hloop2
  | via_group sgreq sattrs spre spost n0 c0 anc2 pre post ce ce2 nm u2
      hspre hspost hpre hrec ih =>
    obtain ⟨hloop, _⟩ := svalidate_group_ok_vtrue _ _ _ _ _ _ hok
    have hwfp : wfsPairs (spre ++ (n0, c0) :: spost) = true := by
      simpa [wfs] using hwf
    have hskn0 : simpleKey n0 = true :=
      (wfsPairs_mem hwfp (n0, c0) (by simp)).1
    have hwfc0 : wfs c0 = true :=
      (wfsPairs_mem hwfp (n0, c0) (by simp)).2
    obtain ⟨hpreE, hrestE⟩ := gcl_append_ok_none _ _ _ _ _ hloop
    have hfE : element_index_string (.group (pre ++ (n0, ce) :: post)) n0 = .ok ce :=
      fetch_middle_self pre post n0 ce hskn0 hpre
    rw [groupChildrenLoop_cons] at hrestE
    have hchE : gclChain c0 n0 anc2 (.group (pre ++ (n0, ce) :: post)) strict =
        svalidate c0 (anc2 ++ [(n0, c0.isList)]) ce strict := by
      simp [gclChain, hfE]
    rw [hchE] at hrestE
    cases hv : svalidate c0 (anc2 ++ [(n0, c0.isList)]) ce strict with
    | error er =>
      cases er with
      | lookupError m =>
        exact absurd hv
          (svalidate_no_lookupError c0 (anc2 ++ [(n0, c0.isList)]) ce strict m)
      | castError m => simp [hv] at hrestE
      | schemaError m => simp [hv] at hrestE
      | undefinedBehavior => simp [hv] at hrestE
    | ok rv =>
      simp only [hv] at hrestE
      by_cases hvv : rv.valid = true
      · have hrv : rv = vtrue := svalidate_ok_valid_eq _ _ _ _ _ hv hvv
        rw [if_pos hvv] at hrestE
        have hchild := ih hwfc0 (hrv ▸ hv)
        have hpreE2 : groupChildrenLoop spre anc2
            (.group (pre ++ (n0, ce2) :: post)) strict = .ok none := by
          rw [groupChildrenLoop_congr spre anc2
            (.group (pre ++ (n0, ce2) :: post))
            (.group (pre ++ (n0, ce) :: post)) strict ?_]
          · exact hpreE
          · intro p hp
            apply gclChain_fetch_congr
            have hsk := (wfsPairs_mem hwfp p (List.mem_append_left _ hp)).1
            have hne : p.1 ≠ n0 := by
              intro he
              exact hspre (he ▸ List.mem_map_of_mem Prod.fst hp)
            rw [fetch_middle_ne pre post p.1 n0 ce2 hsk hne,
              fetch_middle_ne pre post p.1 n0 ce hsk hne]
        have hfE2 : element_index_string (.group (pre ++ (n0, ce2) :: post)) n0 =
            .ok ce2 := fetch_middle_self pre post n0 ce2 hskn0 hpre
        have hloop2 : groupChildrenLoop (spre ++ (n0, c0) :: spost) anc2
            (.group (pre ++ (n0, ce2) :: post)) strict =
            .ok (some ⟨false, u2,
              "Missing required attribute \x27" ++ nm ++ "\x27"⟩) := by
          rw [groupChildrenLoop_append, hpreE2]
          simp only []
          rw [groupChildrenLoop_cons]
          have hch2 : gclChain c0 n0 anc2
              (.group (pre ++ (n0, ce2) :: post)) strict =
              svalidate c0 (anc2 ++ [(n0, c0.isList)]) ce2 strict := by
            simp [gclChain, hfE2]
          rw [hch2, hchild]
          simp only []
          rw [if_neg (by simp :
            ¬ (vresult.mk false u2
              ("Missing required attribute \x27" ++ nm ++ "\x27")).valid = true)]
        exact svalidate_group_of_loop_some _ _ _ _ _ _ _ hloop2
      · rw [if_neg hvv] at hrestE
        simp at hrestE
  | via_list slreq sattrs c0 crest anc2 epre epost ce ce2 nm u2 hrec ih =>
    obtain ⟨hloop, _⟩ := svalidate_list_ok_vtrue _ _ _ _ _ _ hok
    have hwfc0 : wfs c0 = true := by
      have : wfsList (c0 :: crest) = true := by simpa [wfs] using hwf
      exact (wfsList_mem this c0 (List.mem_cons_self _ _))
    obtain ⟨hpreL, hrestL⟩ := lel_append_ok_none _ _ _ _ _ hloop
    rw [listElemsLoop_cons] at hrestL
    cases hv : svalidate c0 (anc2 ++ [("", c0.isList)]) ce strict with
    | error er => simp [hv] at hrestL
    | ok rv =>
      simp only [hv] at hrestL
      by_cases hvv : rv.valid = true
      · have hrv : rv = vtrue := svalidate_ok_valid_eq _ _ _ _ _ hv hvv
        have hchild := ih hwfc0 (hrv ▸ hv)
        have hloop2 : listElemsLoop (c0 :: crest) anc2 (epre ++ ce2 :: epost) strict =
            .ok (some ⟨false, u2,
              "Missing required attribute \x27" ++ nm ++ "\x27"⟩) := by
          rw [listElemsLoop_append, hpreL]
          simp only []
          rw [listElemsLoop_cons, hchild]
          simp only []
          rw [if_neg (by simp :
            ¬ (vresult.mk false u2
              ("Missing required attribute \x27" ++ nm ++ "\x27")).valid = true)]
        exact svalidate_list_of_loop_some _ _ _ _ _ _ _ hloop2
      · rw [if_neg hvv] at hrestL
        simp at hrestL

/-- Witness for `c2_missing_required_location`: removing the required leaf
"a" from under the root group reports the failure at the root's uri
"/". -/
theorem c2_missing_required_location_witness :
    svalidate (.sgroup false [] [("a", .satom true [] .tLong)]) []
      (element.group []) false
      = .ok ⟨false, "/", "Missing required attribute \x27a\x27"⟩ := by
  have hrm : RemovedLeaf (.sgroup false [] [("a", .satom true [] .tLong)]) []
      (element.group [("a", element.atom (cvalue.vlong 1))]) (element.group [])
      "a" "/" := by
    have h := RemovedLeaf.here false [] [] [] [] [] "a" .tLong [] []
      (element.atom (cvalue.vlong 1)) (by simp) (by simp) (by simp)
    simpa [snode_uri] using h
  exact c2_missing_required_location _ _ _ _ _ _ _ hrm
    (by simp [wfs, wfsPairs, simpleKey, hasPathSep])
    (by simp [svalidate, groupChildrenLoop, element_index_string, hasPathSep,
      as_group, as_atom, group_get, assocFind, cvalueType, snode.isList,
      snode.required, vtrue])

/-- Counterexample to claim C2 as stated: for the root schema group with
one required long leaf "a", validating the empty group yields valid=false
with location "/" — the uri of the leaf's parent group — while the leaf's
own schema uri is "/a"; the claimed location (the absent leaf's uri) is
not the reported one. -/
theorem c2_counterexample :
    svalidate (.sgroup false [] [("a", .satom true [] .tLong)]) []
      (element.group []) false
      = .ok ⟨false, "/", "Missing required attribute \x27a\x27"⟩
    ∧ snode_uri [("a", false)] = "/a"
    ∧ ("/" : String) ≠ "/a" := by
  refine ⟨?_, by decide, by decide⟩
  simp [svalidate, groupChildrenLoop, element_index_string, hasPathSep,
    as_group, group_get, assocFind, snode.required, snode.isList, snode_uri, vtrue]

theorem not_mem_of_assocFind_eq_none {α : Type} (l : List (String × α))
    (k : String) (h : assocFind l k = none) : k ∉ l.map Prod.fst := by
  induction l with
  | nil => simp
  | cons p t ih =>
    cases p with
    | mk k2 v =>
      rw [assocFind] at h
      by_cases hk : k2 = k
      · rw [if_pos hk] at h; cases h
      · rw [if_neg hk] at h
        simp only [List.map_cons, List.mem_cons, not_or]
        exact ⟨fun he => hk he.symm, ih h⟩

theorem assocFind_snoc_ne {α : Type} (es : List (String × α)) (k q : String)
    (v : α) (h : q ≠ k) :
    assocFind (es ++ [(k, v)]) q = assocFind es q := by
  rw [assocFind_append]
  cases assocFind es q with
  | some w => simp
  | none =>
    simp only
    rw [assocFind, if_neg (fun he => h he.symm)]
    rfl

/-- The relation between a schema tree, an element tree, and the element
tree obtained from it by appending one new key — declared by no schema
child — to a group reached along schema edges. The last two indices carry
the new key and the uri of the schema group it was added under (whose
strict loop reports it). -/
inductive AddedKey :
    snode → List (String × Bool) → element → element → String → String → Prop where
  | here (greq : Bool) (sattrs : List (String × attrval))
      (sch : List (String × snode)) (anc : List (String × Bool))
      (es : List (String × element)) (k : String) (v : element)
      (hk : assocFind sch k = none) (hke : assocFind es k = none) :
      AddedKey (.sgroup greq sattrs sch) anc (.group es)
        (.group (es ++ [(k, v)])) k (snode_uri anc)
  | via_group (sgreq : Bool) (sattrs : List (String × attrval))
      (spre spost : List (String × snode)) (n0 : String) (c0 : snode)
      (anc : List (String × Bool)) (pre post : List (String × element))
      (ce ce' : element) (k u : String)
      (hspre : n0 ∉ spre.map Prod.fst) (hspost : n0 ∉ spost.map Prod.fst)
      (hpre : n0 ∉ pre.map Prod.fst)
      (hrec : AddedKey c0 (anc ++ [(n0, c0.isList)]) ce ce' k u) :
      AddedKey (.sgroup sgreq sattrs (spre ++ (n0, c0) :: spost)) anc
        (.group (pre ++ (n0, ce) :: post)) (.group (pre ++ (n0, ce') :: post)) k u
  | via_list (slreq : Bool) (sattrs : List (String × attrval))
      (c0 : snode) (crest : List snode) (anc : List (String × Bool))
      (epre epost : List element) (ce ce' : element) (k u : String)
      (hrec : AddedKey c0 (anc ++ [("", c0.isList)]) ce ce' k u) :
      AddedKey (.slist slreq sattrs (c0 :: crest)) anc
        (.list (epre ++ ce :: epost)) (.list (epre ++ ce' :: epost)) k u

/-- Non-strict validation does not see the added key: on the modified tree
it returns exactly what it returns on the original. -/
theorem addedKey_nonstrict_frame (S : snode) (anc : List (String × Bool))
    (E E2 : element) (k u : String)
    (hadd : AddedKey S anc E E2 k u) (hwf : wfs S = true) :
    svalidate S anc E2 false = svalidate S anc E false := by
  induction hadd with
  | here greq sattrs sch anc2 es k2 v hk hke =>
    simp only [svalidate, as_group]
    have hgcl : groupChildrenLoop sch anc2 (.group (es ++ [(k2, v)])) false =
        groupChildrenLoop sch anc2 (.group es) false := by
      apply groupChildrenLoop_congr
      intro p hp
      apply gclChain_fetch_congr
      have hsk : simpleKey p.1 = true :=
        (wfsPairs_mem (by simpa [wfs] using hwf) p hp).1
      have hne : p.1 ≠ k2 := by
        intro he
        exact not_mem_of_assocFind_eq_none sch k2 hk
          (he ▸ List.mem_map_of_mem Prod.fst hp)
      rw [fetch_group_simple _ _ hsk, fetch_group_simple _ _ hsk]
      simp only [group_get, assocFind_snoc_ne es k2 p.1 v hne]
    rw [hgcl]
    cases groupChildrenLoop sch anc2 (.group es) false with
    | error er => rfl
    | ok o =>
      cases o with
      | some r => rfl
      | none => simp
  | via_group sgreq sattrs spre spost n0 c0 anc2 pre post ce ce2 k2 u2
      hspre hspost hpre hrec ih =>
    have hwfp : wfsPairs (spre ++ (n0, c0) :: spost) = true := by
      simpa [wfs] using hwf
    have hskn0 : simpleKey n0 = true :=
      (wfsPairs_mem hwfp (n0, c0) (by simp)).1
    have hwfc0 : wfs c0 = true :=
      (wfsPairs_mem hwfp (n0, c0) (by simp)).2
    simp only [svalidate, as_group]
    have hgcl : groupChildrenLoop (spre ++ (n0, c0) :: spost) anc2
        (.group (pre ++ (n0, ce2) :: post)) false =
        groupChildrenLoop (spre ++ (n0, c0) :: spost) anc2
        (.group (pre ++ (n0, ce) :: post)) false := by
      apply groupChildrenLoop_congr
      intro p hp
      rcases List.mem_append.mp hp with hp1 | hp2
      · apply gclChain_fetch_congr
        have hsk := (wfsPairs_mem hwfp p (List.mem_append_left _ hp1)).1
        have hne : p.1 ≠ n0 := by
          intro he
          exact hspre (he ▸ List.mem_map_of_mem Prod.fst hp1)
        rw [fetch_middle_ne pre post p.1 n0 ce2 hsk hne,
          fetch_middle_ne pre post p.1 n0 ce hsk hne]
      · rcases List.mem_cons.mp hp2 with hp3 | hp4
        · subst hp3
          simp only [gclChain,
            fetch_middle_self pre post n0 ce2 hskn0 hpre,
            fetch_middle_self pre post n0 ce hskn0 hpre]
          exact ih hwfc0
        · apply gclChain_fetch_congr
          have hsk := (wfsPairs_mem hwfp p
            (List.mem_append_right _ (List.mem_cons_of_mem _ hp4))).1
          have hne : p.1 ≠ n0 := by
            intro he
            exact hspost (he ▸ List.mem_map_of_mem Prod.fst hp4)
          rw [fetch_middle_ne pre post p.1 n0 ce2 hsk hne,
            fetch_middle_ne pre post p.1 n0 ce hsk hne]
    rw [hgcl]
    cases groupChildrenLoop (spre ++ (n0, c0) :: spost) anc2
        (.group (pre ++ (n0, ce) :: post)) false with
    | error er => rfl
    | ok o =>
      cases o with
      | some r => rfl
      | none => simp
  | via_list slreq sattrs c0 crest anc2 epre epost ce ce2 k2 u2 hrec ih =>
    have hwfc0 : wfs c0 = true := by
      have h2 : wfsList (c0 :: crest) = true := by simpa [wfs] using hwf
      exact wfsList_mem h2 c0 (List.mem_cons_self _ _)
    simp only [svalidate, as_list]
    have hlel : listElemsLoop (c0 :: crest) anc2 (epre ++ ce2 :: epost) false =
        listElemsLoop (c0 :: crest) anc2 (epre ++ ce :: epost) false := by
      rw [listElemsLoop_append, listElemsLoop_append]
      cases listElemsLoop (c0 :: crest) anc2 epre false with
      | error er => rfl
      | ok o =>
        cases o with
        | some r => rfl
        | none =>
          simp only []
          rw [listElemsLoop_cons, listElemsLoop_cons, ih hwfc0]
    rw [hlel]
    have hlen : (epre ++ ce2 :: epost).length = (epre ++ ce :: epost).length := by
      simp
    rw [hlen]

/-- Strict validation of the modified tree fails at the strict loop of the
group the key was added under, naming the key. -/
theorem addedKey_strict_fails (S : snode) (anc : List (String × Bool))
    (E E2 : element) (k u : String)
    (hadd : AddedKey S anc E E2 k u) (hwf : wfs S = true)
    (hok : svalidate S anc E true = .ok vtrue) :
    svalidate S anc E2 true =
      .ok ⟨false, u, "Attribute \x27" ++ k ++ "\x27 not found in schema "
        ++ "(strict validation). This might possibly be a typo."⟩ := by
  induction hadd with
  | here greq sattrs sch anc2 es k2 v hk hke =>
    obtain ⟨hloop, hstrict⟩ := svalidate_group_ok_vtrue _ _ _ _ _ _ hok
    have hstr := hstrict rfl
    have hgcl2 : groupChildrenLoop sch anc2 (.group (es ++ [(k2, v)])) true =
        .ok none := by
      rw [groupChildrenLoop_congr sch anc2 (.group (es ++ [(k2, v)]))
        (.group es) true ?_]
      · exact hloop
      · intro p hp
        apply gclChain_fetch_congr
        have hsk : simpleKey p.1 = true :=
          (wfsPairs_mem (by simpa [wfs] using hwf) p hp).1
        have hne : p.1 ≠ k2 := by
          intro he
          exact not_mem_of_assocFind_eq_none sch k2 hk
            (he ▸ List.mem_map_of_mem Prod.fst hp)
        rw [fetch_group_simple _ _ hsk, fetch_group_simple _ _ hsk]
        simp only [group_get, assocFind_snoc_ne es k2 p.1 v hne]
    have hsl : strictLoop sch (es ++ [(k2, v)]) (snode_uri anc2) =
        some ⟨false, snode_uri anc2,
          "Attribute \x27" ++ k2 ++ "\x27 not found in schema "
            ++ "(strict validation). This might possibly be a typo."⟩ := by
      rw [strictLoop_append, hstr]
      simp only []
      rw [strictLoop_cons, hk]
    exact svalidate_group_of_strict_fail _ _ _ _ _ _ hgcl2 hsl
  | via_group sgreq sattrs spre spost n0 c0 anc2 pre post ce ce2 k2 u2
      hspre hspost hpre hrec ih =>
    obtain ⟨hloop, _⟩ := svalidate_group_ok_vtrue _ _ _ _ _ _ hok
    have hwfp : wfsPairs (spre ++ (n0, c0) :: spost) = true := by
      simpa [wfs] using hwf
    have hskn0 : simpleKey n0 = true :=
      (wfsPairs_mem hwfp (n0, c0) (by simp)).1
    have hwfc0 : wfs c0 = true :=
      (wfsPairs_mem hwfp (n0, c0) (by simp)).2
    obtain ⟨hpreE, hrestE⟩ := gcl_append_ok_none _ _ _ _ _ hloop
    have hfE : element_index_string (.group (pre ++ (n0, ce) :: post)) n0 = .ok ce :=
      fetch_middle_self pre post n0 ce hskn0 hpre
    rw [groupChildrenLoop_cons] at hrestE
    have hchE : gclChain c0 n0 anc2 (.group (pre ++ (n0, ce) :: post)) true =
        svalidate c0 (anc2 ++ [(n0, c0.isList)]) ce true := by
      simp [gclChain, hfE]
    rw [hchE] at hrestE
    cases hv : svalidate c0 (anc2 ++ [(n0, c0.isList)]) ce true with
    | error er =>
      cases er with
      | lookupError m =>
        exact absurd hv
          (svalidate_no_lookupError c0 (anc2 ++ [(n0, c0.isList)]) ce true m)
      | castError m => simp [hv] at hrestE
      | schemaError m => simp [hv] at hrestE
      | undefinedBehavior => simp [hv] at hrestE
    | ok rv =>
      simp only [hv] at hrestE
      by_cases hvv : rv.valid = true
      · have hrv : rv = vtrue := svalidate_ok_valid_eq _ _ _ _ _ hv hvv
        rw [if_pos hvv] at hrestE
        have hchild := ih hwfc0 (hrv ▸ hv)
        have hpreE2 : groupChildrenLoop spre anc2
            (.group (pre ++ (n0, ce2) :: post)) true = .ok none := by
          rw [groupChildrenLoop_congr spre anc2
            (.group (pre ++ (n0, ce2) :: post))
            (.group (pre ++ (n0, ce) :: post)) true ?_]
          · exact hpreE
          · intro p hp
            apply gclChain_fetch_congr
            have hsk := (wfsPairs_mem hwfp p (List.mem_append_left _ hp)).1
            have hne : p.1 ≠ n0 := by
              intro he
              exact hspre (he ▸ List.mem_map_of_mem Prod.fst hp)
            rw [fetch_middle_ne pre post p.1 n0 ce2 hsk hne,
              fetch_middle_ne pre post p.1 n0 ce hsk hne]
        have hfE2 : element_index_string (.group (pre ++ (n0, ce2) :: post)) n0 =
            .ok ce2 := fetch_middle_self pre post n0 ce2 hskn0 hpre
        have hloop2 : groupChildrenLoop (spre ++ (n0, c0) :: spost) anc2
            (.group (pre ++ (n0, ce2) :: post)) true =
            .ok (some ⟨false, u2,
              "Attribute \x27" ++ k2 ++ "\x27 not found in schema "
                ++ "(strict validation). This might possibly be a typo."⟩) := by
          rw [groupChildrenLoop_append, hpreE2]
          simp only []
          rw [groupChildrenLoop_cons]
          have hch2 : gclChain c0 n0 anc2
              (.group (pre ++ (n0, ce2) :: post)) true =
              svalidate c0 (anc2 ++ [(n0, c0.isList)]) ce2 true := by
            simp [gclChain, hfE2]
          rw [hch2, hchild]
          simp only []
          rw [if_neg (by simp :
            ¬ (vresult.mk false u2
              ("Attribute \x27" ++ k2 ++ "\x27 not found in schema "
                ++ "(strict validation). This might possibly be a typo.")).valid = true)]
        exact svalidate_group_of_loop_some _ _ _ _ _ _ _ hloop2
      · rw [if_neg hvv] at hrestE
        simp at hrestE
  | via_list slreq sattrs c0 crest anc2 epre epost ce ce2 k2 u2 hrec ih =>
    obtain ⟨hloop, _⟩ := svalidate_list_ok_vtrue _ _ _ _ _ _ hok
    have hwfc0 : wfs c0 = true := by
      have h2 : wfsList (c0 :: crest) = true := by simpa [wfs] using hwf
      exact wfsList_mem h2 c0 (List.mem_cons_self _ _)
    obtain ⟨hpreL, hrestL⟩ := lel_append_ok_none _ _ _ _ _ hloop
    rw [listElemsLoop_cons] at hrestL
    cases hv : svalidate c0 (anc2 ++ [("", c0.isList)]) ce true with
    | error er => simp [hv] at hrestL
    | ok rv =>
      simp only [hv] at hrestL
      by_cases hvv : rv.valid = true
      · have hrv : rv = vtrue := svalidate_ok_valid_eq _ _ _ _ _ hv hvv
        have hchild := ih hwfc0 (hrv ▸ hv)
        have hloop2 : listElemsLoop (c0 :: crest) anc2 (epre ++ ce2 :: epost) true =
            .ok (some ⟨false, u2,
              "Attribute \x27" ++ k2 ++ "\x27 not found in schema "
                ++ "(strict validation). This might possibly be a typo."⟩) := by
          rw [listElemsLoop_append, hpreL]
          simp only []
          rw [listElemsLoop_cons, hchild]
          simp only []
          rw [if_neg (by simp :
            ¬ (vresult.mk false u2
              ("Attribute \x27" ++ k2 ++ "\x27 not found in schema "
                ++ "(strict validation). This might possibly be a typo.")).valid = true)]
        exact svalidate_list_of_loop_some _ _ _ _ _ _ _ hloop2
      · rw [if_neg hvv] at hrestL
        simp at hrestL

/-- Claim C9: starting from an element tree that validates successfully
(strictly), adding one key that no schema child declares to a group
reached along schema edges makes strict validation return valid=false
with a message naming that key (located at the uri of the group it was
added under), while non-strict validation of the same modified tree still
returns valid. -/
theorem c9_strict_detects_added_key (S : snode) (anc : List (String × Bool))
    (E E2 : element) (k u : String)
    (hadd : AddedKey S anc E E2 k u) (hwf : wfs S = true)
    (hok : svalidate S anc E true = .ok vtrue) :
    svalidate S anc E2 true =
      .ok ⟨false, u, "Attribute \x27" ++ k ++ "\x27 not found in schema "
        ++ "(strict validation). This might possibly be a typo."⟩
    ∧ svalidate S anc E2 false = .ok vtrue := by
  refine ⟨addedKey_strict_fails S anc E E2 k u hadd hwf hok, ?_⟩
  rw [addedKey_nonstrict_frame S anc E E2 k u hadd hwf]
  exact svalidate_mono S anc E hok

/-- Witness for `c9_strict_detects_added_key`: a root schema declaring
one optional long "a"; the config group gains an undeclared key "b". -/
theorem c9_strict_detects_added_key_witness :
    svalidate (.sgroup false [] [("a", .satom false [] .tLong)]) []
      (element.group [("a", element.atom (cvalue.vlong 1)),
        ("b", element.atom (cvalue.vlong 2))]) true
      = .ok ⟨false, "/", "Attribute \x27b\x27 not found in schema "
          ++ "(strict validation). This might possibly be a typo."⟩
    ∧ svalidate (.sgroup false [] [("a", .satom false [] .tLong)]) []
      (element.group [("a", element.atom (cvalue.vlong 1)),
        ("b", element.atom (cvalue.vlong 2))]) false
      = .ok vtrue := by
  have hadd : AddedKey (.sgroup false [] [("a", .satom false [] .tLong)]) []
      (element.group [("a", element.atom (cvalue.vlong 1))])
      (element.group [("a", element.atom (cvalue.vlong 1)),
        ("b", element.atom (cvalue.vlong 2))]) "b" "/" := by
    have h := AddedKey.here false [] [("a", .satom false [] .tLong)] []
      [("a", element.atom (cvalue.vlong 1))] "b"
      (element.atom (cvalue.vlong 2)) rfl rfl
    simpa [snode_uri] using h
  exact c9_strict_detects_added_key _ _ _ _ _ _ hadd
    (by simp [wfs, wfsPairs, simpleKey, hasPathSep])
    (by simp [svalidate, groupChildrenLoop, element_index_string, hasPathSep,
      as_group, as_atom, group_get, assocFind, cvalueType, snode.isList,
      snode.required, strictLoop, snode_uri, vtrue])

end CConfig
